import Mathlib

/-
Verification of the wallet-orchestration core of the Human-buy repository.

The definitions below are a shallow embedding of the JavaScript source:
  - buyQuote                  (simpleBuy.js / humanbuy.js, constant-product quote)
  - calculateDirectBuyAmount  (humanbuy.js, dynamic sizing fallback path)
  - determineNextSellPoint    (humanbuy.js, sell trigger draw)
  - determineConsecutiveSells (humanbuy.js, consecutive-sell draw)
  - executeSessionSell / executeSessionSells (humanbuy.js, sell selection)
  - the main humanbuy trading loop as a step function on a session state.

Conventions:
  - bn.js big integers are modelled as Nat, with the one signed subtraction
    in buyQuote performed in Int (bn.js subtraction may produce a negative).
  - JavaScript floating point numbers (SOL amounts, Math.random draws) are
    modelled as rationals; every Math.random() outcome is an explicit
    oracle parameter.
  - A JavaScript Map is modelled as an association list where set prepends
    a binding and lookup takes the first binding; a JavaScript Set is a
    duplicate-free list in insertion order.
  - Network calls and transaction outcomes are oracle fields of an Event;
    one Event drives one iteration of the main while loop.
-/

namespace HumanBuy

/-- Math.round for the nonnegative draws used by the source: round half up. -/
def jsRound (q : ℚ) : ℤ := Int.floor (q + 1/2)

/-- Bonding curve reserve snapshot, as deserialized from the chain
(fields of BondingCurveLayout used by buyQuote). -/
structure Reserves where
  virtualSolReserves : ℕ
  virtualTokenReserves : ℕ
  realTokenReserves : ℕ
deriving Repr, DecidableEq

/-- buyQuote from simpleBuy.js (also inlined in humanbuy.js):
zero input or a missing reserves object returns 0; otherwise
tokensToReceive = virtualTokenReserves - (product / newSolReserves + 1),
clamped above by realTokenReserves.  bn.js subtraction can go negative,
hence the Int result. -/
def buyQuote (solLamports : ℕ) (reserves : Option Reserves) : ℤ :=
  match reserves with
  | none => 0
  | some r =>
    if solLamports = 0 then 0
    else
      let product := r.virtualSolReserves * r.virtualTokenReserves
      let newSolReserves := r.virtualSolReserves + solLamports
      let newTokenAmount := product / newSolReserves + 1
      min ((r.virtualTokenReserves : ℤ) - (newTokenAmount : ℤ)) (r.realTokenReserves : ℤ)

/-- Ceiling division on Nat, used to state the quote formula of the spec. -/
def ceilDivN (a b : ℕ) : ℕ := (a + b - 1) / b

/-- The quote formula exactly as the spec sentence states it:
out = virtualBase - ceil(virtualBase*virtualQuote / (virtualQuote + in)),
clamped to realBase, and 0 on degenerate inputs.  Modelled from the spec
wording for refinement comparison with buyQuote. -/
def claimQuote (solLamports : ℕ) (reserves : Option Reserves) : ℤ :=
  match reserves with
  | none => 0
  | some r =>
    if solLamports = 0 then 0
    else
      min ((r.virtualTokenReserves : ℤ) -
            (ceilDivN (r.virtualSolReserves * r.virtualTokenReserves)
              (r.virtualSolReserves + solLamports) : ℤ))
          (r.realTokenReserves : ℤ)

/-- Wallet balance minus the fixed 0.05 SOL fee reserve, floored at zero
(calculateDynamicBuyAmount in humanbuy.js). -/
def effectiveBalanceOf (walletBalance : ℚ) : ℚ := max 0 (walletBalance - 1/20)

/-- The percentage band drawn by calculateDirectBuyAmount: r is the
Math.random() outcome in [0,1). -/
def directBuyPercentage (effectiveBalance : ℚ) (r : ℚ) : ℚ :=
  if 5 < effectiveBalance then 2/5 + r * (1/5)
  else if 1 < effectiveBalance then 1/2 + r * (1/5)
  else 3/5 + r * (1/5)

/-- calculateDirectBuyAmount from humanbuy.js: balance times band
percentage, capped at 5 SOL, raised to min(0.1, 0.9 * balance), and
floored to 6 decimal places. -/
def calculateDirectBuyAmount (effectiveBalance : ℚ) (r : ℚ) : ℚ :=
  let buyPercentage := directBuyPercentage effectiveBalance r
  let buyAmount := effectiveBalance * buyPercentage
  let capped := min buyAmount 5
  let floored := max capped (min (1/10) (effectiveBalance * (9/10)))
  ((Int.floor (floored * 1000000) : ℤ) : ℚ) / 1000000

/-- Explicit Math.random() outcomes consumed by determineNextSellPoint:
branch selects the 70/20/10 mixture arm, side selects the low or high
half inside an arm, value is the draw scaled into the arm. -/
structure NextRands where
  branch : ℚ
  side : ℚ
  value : ℚ

/-- Explicit Math.random() outcomes consumed by determineConsecutiveSells. -/
structure ConsecRands where
  branch : ℚ
  side : ℚ
  value : ℚ

/-- determineNextSellPoint from humanbuy.js: mixture draw over [4,17]
with mean 7.37, clamped into the bounds at the end. -/
def determineNextSellPoint (o : NextRands) : ℕ :=
  let avg : ℚ := 737/100
  let buyCount : ℤ :=
    if o.branch < 7/10 then jsRound (avg - 2 + o.value * 4)
    else if o.branch < 9/10 then
      if o.side < 1/2 then jsRound (4 + o.value * (avg - 4 - 2))
      else jsRound ((avg + 2) + o.value * (17 - avg - 2))
    else
      if o.side < 1/2 then 4 else 17
  (max 4 (min 17 buyCount)).toNat

/-- determineConsecutiveSells from humanbuy.js: first hard-caps by
min(7, availableWallets), returns 1 when that cap is at most 1, and
otherwise draws from a mixture over [1, maxPossible] with mean 2.95,
clamped into the bounds at the end. -/
def determineConsecutiveSells (availableWallets : ℕ) (o : ConsecRands) : ℕ :=
  let maxPossible : ℕ := min 7 availableWallets
  if maxPossible ≤ 1 then 1
  else
    let avg : ℚ := 59/20
    let sellCount : ℤ :=
      if o.branch < 13/20 then jsRound (avg - 1 + o.value * 2)
      else if o.branch < 9/10 then
        if o.side < 2/5 then jsRound (1 + o.value * (avg - 1 - 1))
        else jsRound ((avg + 1) + o.value * ((maxPossible : ℚ) - avg - 1))
      else
        if o.side < 3/10 then 1 else (maxPossible : ℤ)
    (max 1 (min (maxPossible : ℤ) sellCount)).toNat

/-- The retry interval after a failed sell sequence in humanbuy.js:
2 + Math.floor(Math.random() * 3), i.e. a draw from 2..4. -/
def retryOffset (rr : ℚ) : ℕ := (2 + Int.floor (rr * 3)).toNat

/-
The trading loop of humanbuy.js as a step function on a session state.
Wallet public keys are numbered.  Each iteration of the while loop is
driven by one Event whose fields are the outcomes of the external calls
of that iteration; results of the random draw functions above are carried
as already-drawn numbers (the lemmas about determineNextSellPoint and
determineConsecutiveSells characterise which numbers real draws produce,
and all loop theorems hold for every oracle value).
-/

/-- One entry of the walletCycle array: the wallet reference plus the
isRebuy flag and the carried rebuy count set when the cycle was
refreshed from usedSellWallets. -/
structure WalletCycleEntry where
  pubKey : ℕ
  isRebuy : Bool
  rebuyCount : ℕ
deriving Repr, DecidableEq

/-- The mutable session state of the humanbuy main loop.
successfulBuyWallets holds the key set of the Map (insertion order,
re-inserted keys go to the end after a delete); usedSellWallets and
blacklistedWallets are Sets in insertion order; rebuyCountMap is the
Map from wallet to rebuy count; walletCycle is the not-yet-processed
suffix of the cycle (walletCyclePosition is represented by consuming
processed entries). -/
structure SessionState where
  buyCounter : ℕ
  successfulBuyWallets : List ℕ
  usedSellWallets : List ℕ
  rebuyCountMap : List (ℕ × ℕ)
  blacklistedWallets : List ℕ
  buysUntilNextSell : ℕ
  walletCycle : List WalletCycleEntry
  stopped : Bool
deriving Repr, DecidableEq

/-- Map.get with default 0 (rebuyCountMap.get(pubKey) || 0). -/
def rcGet (m : List (ℕ × ℕ)) (pk : ℕ) : ℕ := ((m.lookup pk).getD 0)

/-- Map.set: observationally a JavaScript Map.set, since lookup takes
the first binding. -/
def rcSet (m : List (ℕ × ℕ)) (pk v : ℕ) : List (ℕ × ℕ) := (pk, v) :: m

/-- Set.add / Map.set key insertion: append if not yet present. -/
def addUnique (l : List ℕ) (a : ℕ) : List ℕ := if a ∈ l then l else l ++ [a]

/-- Result of the calculateDynamicBuyAmount call made for a wallet while
refreshing the cycle: a usable amount, an amount below the 0.01 SOL
rebuy minimum (which blacklists), or a thrown error (which skips). -/
inductive RebuyCalc
  | ok
  | tooSmall
  | err
deriving Repr, DecidableEq

/-- The random index and transaction outcome of one executeSessionSell
call: idx is the Math.floor(Math.random()*length) pick among the
eligible wallets, success is whether the sell transaction went through. -/
structure SellAttempt where
  idx : ℕ
  success : Bool
deriving Repr, DecidableEq

/-- Oracle data of one executeSessionSells sequence.  consecDraw is the
result of the determineConsecutiveSells call for the availableWalletCount
it receives; pausedDuringSells records the value the global isPaused flag
would show before each individual sell (the source never reads it there,
which is what claim C5 is about). -/
structure SellOracle where
  consecDraw : ℕ → ℕ
  attempts : List SellAttempt
  fallbackSuccess : Bool
  pausedDuringSells : List Bool

/-- Outcome of the buy part of one loop iteration: a skip (low balance or
thrown error), a failed buy transaction, or a successful buy carrying the
oracle of the sell sequence it may trigger and the two threshold draws. -/
inductive TickOutcome
  | skip
  | buyFail
  | buyOk (so : SellOracle) (nextDraw : ℕ) (retryDraw : ℕ)

/-- Oracle for one iteration of the main while loop.  paused is the value
of the isPaused flag at the poll at the top of the loop; rebuyCalc gives
the per-wallet outcome of the rebuy amount calculation if this iteration
refreshes the cycle; permIdx selects the shuffle permutation. -/
structure Event where
  paused : Bool
  rebuyCalc : ℕ → RebuyCalc
  permIdx : ℕ
  outcome : TickOutcome

/-- Session constants: the wallets selected for trading (by key) and the
initial determineNextSellPoint draw taken before the loop starts. -/
structure Config where
  selectedWallets : List ℕ
  initialSellPoint : ℕ

/-- The eligible-wallet filter of executeSessionSell: drop wallets already
in usedSellWallets, and drop the most recently used wallet when the
successfulBuyWallets map has more than one entry. -/
def eligibleWallets (sbw usw : List ℕ) (last : Option ℕ) : List ℕ :=
  sbw.filter (fun pk => decide (pk ∉ usw ∧ ¬(last = some pk ∧ 1 < sbw.length)))

/-- The wallet an executeSessionSell call proceeds with: a random member
of the eligible list if it is nonempty, otherwise the last used wallet as
fallback when it still holds tokens and has not sold, otherwise none. -/
def sellSelect (sbw usw : List ℕ) (last : Option ℕ) (idx : ℕ) : Option ℕ :=
  let elig := eligibleWallets sbw usw last
  if elig.isEmpty then
    match last with
    | some l => if l ∈ sbw ∧ l ∉ usw then some l else none
    | none => none
  else some (elig.getD (idx % elig.length) 0)

/-- executeSessionSell together with the executeWalletSell it invokes.
Returns the new state, the wallet reported to the caller as a successful
sell (none on failure and also on the fallback path, whose raw boolean
return has no .success field and therefore reads as a failure in
executeSessionSells), and the list of wallets a sell transaction was
issued for.  Every executeWalletSell call adds its wallet to
usedSellWallets; a successful one also deletes it from
successfulBuyWallets. -/
def executeSessionSell (s : SessionState) (a : SellAttempt) (fb : Bool) (last : Option ℕ) :
    SessionState × Option ℕ × List ℕ :=
  let elig := eligibleWallets s.successfulBuyWallets s.usedSellWallets last
  match sellSelect s.successfulBuyWallets s.usedSellWallets last a.idx with
  | none => (s, none, [])
  | some pk =>
    if elig.isEmpty then
      ({ s with usedSellWallets := addUnique s.usedSellWallets pk,
                successfulBuyWallets :=
                  if fb then s.successfulBuyWallets.erase pk else s.successfulBuyWallets },
       none, [pk])
    else
      ({ s with usedSellWallets := addUnique s.usedSellWallets pk,
                successfulBuyWallets :=
                  if a.success then s.successfulBuyWallets.erase pk else s.successfulBuyWallets },
       if a.success then some pk else none, [pk])

/-- The for loop inside executeSessionSells: runs up to the drawn count,
stops at the first reported failure, threads the last successful wallet.
Returns the number of successful sells, the final state and the wallets a
sell was issued for. -/
def sellsLoop : ℕ → SessionState → List SellAttempt → Bool → Option ℕ →
    ℕ × SessionState × List ℕ
  | 0, s, _, _, _ => (0, s, [])
  | Nat.succ f, s, atts, fb, last =>
    let r := executeSessionSell s (atts.headD ⟨0, false⟩) fb last
    match r.2.1 with
    | some pk =>
      let rest := sellsLoop f r.1 atts.tail fb (some pk)
      (rest.1 + 1, rest.2.1, r.2.2 ++ rest.2.2)
    | none => (0, r.1, r.2.2)

/-- executeSessionSells: counts the available wallets, returns failure at
zero, otherwise draws the consecutive-sell count and runs the sequence.
The reported success is successfulSells > 0. -/
def executeSessionSells (s : SessionState) (so : SellOracle) (buyerPk : ℕ) :
    SessionState × Bool × List ℕ :=
  let avail := (s.successfulBuyWallets.filter
      (fun pk => decide (pk ∉ s.usedSellWallets))).length
  if avail = 0 then (s, false, [])
  else
    let r := sellsLoop (so.consecDraw avail) s so.attempts so.fallbackSuccess (some buyerPk)
    (r.2.1, decide (0 < r.1), r.2.2)

/-- The post-buy sell trigger of the main loop: when the buy counter has
reached the threshold, run the sell sequence and redraw the threshold
(buyCounter + nextDraw on success, buyCounter + retryDraw after a failed
sequence). -/
def sellPhase (s : SessionState) (so : SellOracle) (dNext dRetry : ℕ) (buyerPk : ℕ) :
    SessionState × List ℕ :=
  if s.buysUntilNextSell ≤ s.buyCounter then
    let r := executeSessionSells s so buyerPk
    if r.2.1 then
      ({ r.1 with buysUntilNextSell := r.1.buyCounter + dNext }, r.2.2)
    else
      ({ r.1 with buysUntilNextSell := r.1.buyCounter + dRetry }, r.2.2)
  else (s, [])

/-- State updates of a successful buy: increment the counter, record the
carried rebuy count for a rebuy, insert the wallet into
successfulBuyWallets. -/
def buySuccessState (s : SessionState) (e : WalletCycleEntry) : SessionState :=
  let s1 := { s with buyCounter := s.buyCounter + 1 }
  let s2 := if e.isRebuy then
      { s1 with rebuyCountMap := rcSet s1.rebuyCountMap e.pubKey e.rebuyCount }
    else s1
  { s2 with successfulBuyWallets := addUnique s2.successfulBuyWallets e.pubKey }

/-- The ceiling MAX_REBUY_COUNT of humanbuy.js. -/
def MAX_REBUY_COUNT : ℕ := 10

/-- One step of the cycle-refresh fold over usedSellWallets: skip
blacklisted wallets and wallets without an original record, blacklist
wallets at the rebuy ceiling or with a too-small recalculated amount,
skip wallets whose amount calculation threw, and otherwise append a rebuy
entry carrying count + 1. -/
def refreshAcc (cfg : Config) (m : List (ℕ × ℕ)) (rcalc : ℕ → RebuyCalc)
    (acc : List ℕ × List WalletCycleEntry) (pk : ℕ) : List ℕ × List WalletCycleEntry :=
  if pk ∈ acc.1 then acc
  else if pk ∉ cfg.selectedWallets then acc
  else if MAX_REBUY_COUNT ≤ rcGet m pk then (addUnique acc.1 pk, acc.2)
  else match rcalc pk with
    | RebuyCalc.ok => (acc.1, acc.2 ++ [⟨pk, true, rcGet m pk + 1⟩])
    | RebuyCalc.tooSmall => (addUnique acc.1 pk, acc.2)
    | RebuyCalc.err => acc

/-- The refresh fold over the whole usedSellWallets set, in insertion
order, starting from the current blacklist and an empty cycle. -/
def refreshFold (cfg : Config) (m : List (ℕ × ℕ)) (rcalc : ℕ → RebuyCalc)
    (u : List ℕ) (bl : List ℕ) (es : List WalletCycleEntry) :
    List ℕ × List WalletCycleEntry :=
  u.foldl (refreshAcc cfg m rcalc) (bl, es)

/-- The walletCycle.sort(() => Math.random() - 0.5) shuffle: an oracle
pick among the permutations of the list (a random-comparator sort always
produces some permutation of its input). -/
def pickPerm (i : ℕ) (l : List α) : List α :=
  match l.permutations.get? (i % l.permutations.length) with
  | some p => p
  | none => l

/-- The cycle refresh of the main loop: rebuild the cycle from
usedSellWallets, stop the run if nothing is eligible for rebuy, otherwise
shuffle the rebuilt cycle. -/
def refresh (cfg : Config) (s : SessionState) (rcalc : ℕ → RebuyCalc) (permIdx : ℕ) :
    SessionState :=
  let r := refreshFold cfg s.rebuyCountMap rcalc s.usedSellWallets s.blacklistedWallets []
  if r.2.isEmpty then
    { s with blacklistedWallets := r.1, walletCycle := [], stopped := true }
  else
    { s with blacklistedWallets := r.1, walletCycle := pickPerm permIdx r.2 }

/-- Processing of the wallet at the front of the (possibly refreshed)
cycle: a skip or failed buy just consumes the entry, a successful buy
updates the ledger and may trigger the sell phase. -/
def tickCore (s : SessionState) (e : WalletCycleEntry) (rest : List WalletCycleEntry)
    (o : TickOutcome) : SessionState × List ℕ :=
  let s1 := { s with walletCycle := rest }
  match o with
  | TickOutcome.skip => (s1, [])
  | TickOutcome.buyFail => (s1, [])
  | TickOutcome.buyOk so dNext dRetry =>
    sellPhase (buySuccessState s1 e) so dNext dRetry e.pubKey

/-- What one loop iteration did: which wallet was processed (none while
paused, stopped, or when the refresh found no rebuy-eligible wallet) and
which wallets a sell transaction was issued for. -/
structure TickTrace where
  processed : Option ℕ
  sellsIssued : List ℕ
deriving Repr, DecidableEq

/-- One iteration of the main while loop of humanbuy.js: poll the pause
flag, refresh the cycle when it is exhausted (stopping the run when the
refresh comes back empty), then process the next wallet. -/
def stepT (cfg : Config) (s : SessionState) (ev : Event) : SessionState × TickTrace :=
  if ev.paused then (s, ⟨none, []⟩)
  else if s.stopped then (s, ⟨none, []⟩)
  else
    let s1 := if s.walletCycle.isEmpty then refresh cfg s ev.rebuyCalc ev.permIdx else s
    match s1.walletCycle with
    | [] => (s1, ⟨none, []⟩)
    | e :: rest =>
      let r := tickCore s1 e rest ev.outcome
      (r.1, ⟨some e.pubKey, r.2⟩)

/-- The state-only step. -/
def step (cfg : Config) (s : SessionState) (ev : Event) : SessionState :=
  (stepT cfg s ev).1

/-- The session state right before the loop starts. -/
def initState (cfg : Config) : SessionState :=
  { buyCounter := 0
    successfulBuyWallets := []
    usedSellWallets := []
    rebuyCountMap := []
    blacklistedWallets := []
    buysUntilNextSell := cfg.initialSellPoint
    walletCycle := cfg.selectedWallets.map (fun pk => ⟨pk, false, 0⟩)
    stopped := false }

/-- The state after running the loop on a list of iteration oracles. -/
def runS (cfg : Config) (evs : List Event) : SessionState :=
  evs.foldl (step cfg) (initState cfg)

/-- Shape of the cycle entries produced by a refresh: a rebuy entry whose
carried count is the current map count plus one, below the ceiling, for a
selected wallet. -/
def goodEntry (cfg : Config) (m : List (ℕ × ℕ)) (e : WalletCycleEntry) : Prop :=
  e.isRebuy = true ∧ e.rebuyCount = rcGet m e.pubKey + 1 ∧
  rcGet m e.pubKey < MAX_REBUY_COUNT ∧ e.pubKey ∈ cfg.selectedWallets

/-- The inductive invariant of the trading loop used for claim C4: the
selected-wallet list and usedSellWallets are duplicate-free; cycle
entries have distinct wallets; every rebuy entry carries exactly the
mapped count plus one, at most the ceiling, and refers to a selected
wallet already in usedSellWallets; entries of the initial fresh cycle
have mapped count zero; a cycle is homogeneous (all rebuy or all fresh);
every mapped count lies in 1..ceiling and belongs to a selected wallet in
usedSellWallets; and no blacklisted wallet sits in the cycle. -/
structure Inv (cfg : Config) (s : SessionState) : Prop where
  selN : cfg.selectedWallets.Nodup
  uswN : s.usedSellWallets.Nodup
  cycN : (s.walletCycle.map fun e => e.pubKey).Nodup
  rebuyE : ∀ e ∈ s.walletCycle, e.isRebuy = true →
    e.rebuyCount = rcGet s.rebuyCountMap e.pubKey + 1 ∧
    e.rebuyCount ≤ MAX_REBUY_COUNT ∧
    e.pubKey ∈ s.usedSellWallets ∧ e.pubKey ∈ cfg.selectedWallets
  freshE : ∀ e ∈ s.walletCycle, e.isRebuy = false → rcGet s.rebuyCountMap e.pubKey = 0
  homog : (∀ e ∈ s.walletCycle, e.isRebuy = true) ∨ (∀ e ∈ s.walletCycle, e.isRebuy = false)
  mapR : ∀ pk v, s.rebuyCountMap.lookup pk = some v →
    1 ≤ v ∧ v ≤ MAX_REBUY_COUNT ∧ pk ∈ s.usedSellWallets ∧ pk ∈ cfg.selectedWallets
  cycBl : ∀ e ∈ s.walletCycle, e.pubKey ∉ s.blacklistedWallets

/-- The pause flags an event records for the individual sells of its sell
sequence (empty when the iteration runs no sequence). -/
def sellPauseFlags : Event → List Bool
  | ⟨_, _, _, TickOutcome.buyOk so _ _⟩ => so.pausedDuringSells
  | _ => []

/-- The event with the recorded per-sell pause flags replaced: used to
state that the sell sequence never reads them. -/
def withSellPauseFlags (ev : Event) (bs : List Bool) : Event :=
  match ev with
  | ⟨p, rc, pi, TickOutcome.buyOk so dN dR⟩ =>
      ⟨p, rc, pi, TickOutcome.buyOk ⟨so.consecDraw, so.attempts, so.fallbackSuccess, bs⟩ dN dR⟩
  | e => e

/-
Concrete session and events used by the trace counterexamples and
witnesses.  Every drawn number they carry is a realizable output of the
corresponding draw function: the initial threshold 4 and the redraw 17
are outputs of determineNextSellPoint (lemmas determineNextSellPoint
hits 4 and 17 below), the consecutive-sell counts 1 and 2 are outputs of
determineConsecutiveSells at four available wallets, and the retry draws
2 and 3 are retryOffset at 0 and one half.
-/

/-- Four selected wallets, first sell threshold 4. -/
def cfgFour : Config := ⟨[0, 1, 2, 3], 4⟩

/-- Sell oracle of an iteration that triggers no sell. -/
def soNoSell : SellOracle := ⟨fun _ => 0, [], false, []⟩

/-- A plain successful buy iteration (threshold redraw 17, retry draw 2
if a sell sequence were to run and fail). -/
def evBuyOk : Event := ⟨false, fun _ => RebuyCalc.ok, 0, TickOutcome.buyOk soNoSell 17 2⟩

/-- Sell oracle drawing one consecutive sell, which succeeds at index 0. -/
def soSellOne : SellOracle := ⟨fun _ => 1, [⟨0, true⟩], false, []⟩

/-- A successful buy iteration whose sell sequence sells one wallet. -/
def evSellOne : Event := ⟨false, fun _ => RebuyCalc.ok, 0, TickOutcome.buyOk soSellOne 17 2⟩

/-- Sell oracle drawing two consecutive sells, both succeeding, with the
pause flag set before each individual sell. -/
def soTwoSellsPaused : SellOracle := ⟨fun _ => 2, [⟨0, true⟩, ⟨0, true⟩], false, [true, true]⟩

/-- A successful buy iteration that runs two sells while the pause flag
is set during the sequence. -/
def evSellsWhilePaused : Event :=
  ⟨false, fun _ => RebuyCalc.ok, 0, TickOutcome.buyOk soTwoSellsPaused 17 2⟩

/-- Sell oracle drawing one consecutive sell whose transaction fails. -/
def soSellFailOnce : SellOracle := ⟨fun _ => 1, [⟨0, false⟩], false, []⟩

/-- A successful buy iteration whose sell sequence fails outright, with
the given retry draw. -/
def evSellFail (dRetry : ℕ) : Event :=
  ⟨false, fun _ => RebuyCalc.ok, 0, TickOutcome.buyOk soSellFailOnce 17 dRetry⟩

/-- Trace: three plain buys, then the buy that reaches the threshold 4;
its sell sequence sells wallet 0 and the threshold becomes 21. -/
def evsToSell : List Event := [evBuyOk, evBuyOk, evBuyOk, evSellOne]

/-- The same trace followed by one iteration in which the cycle refresh
readmits wallet 0 from usedSellWallets and its rebuy succeeds. -/
def evsRebuy : List Event := evsToSell ++ [evBuyOk]

/-- The sell trace followed by ten rebuy iterations of wallet 0, driving
its rebuy count to the ceiling of 10 (threshold 21 is never reached, so
no further sell interferes). -/
def evsToCeiling : List Event := evsToSell ++ List.replicate 10 evBuyOk

/-
Arithmetic helper lemmas.
-/

lemma ceilDivN_dvd (a b : ℕ) (hb : 0 < b) (h : b ∣ a) : ceilDivN a b = a / b := by
  obtain ⟨k, rfl⟩ := h
  have key : b * k + b - 1 = b * k + (b - 1) := by omega
  have hz : (b - 1) / b = 0 := Nat.div_eq_of_lt (by omega)
  rw [ceilDivN, key, Nat.mul_add_div hb, hz, Nat.mul_div_cancel_left _ hb]
  omega

lemma ceilDivN_not_dvd (a b : ℕ) (hb : 0 < b) (h : ¬ b ∣ a) : ceilDivN a b = a / b + 1 := by
  have hmod : a % b < b := Nat.mod_lt a hb
  have hdm : b * (a / b) + a % b = a := Nat.div_add_mod a b
  have hr : a % b ≠ 0 := by
    intro hz
    exact h (Nat.dvd_of_mod_eq_zero hz)
  have hmul : b * (a / b + 1) = b * (a / b) + b := by ring
  have key : a + b - 1 = b * (a / b + 1) + (a % b - 1) := by
    rw [hmul]
    omega
  have hz2 : (a % b - 1) / b = 0 := Nat.div_eq_of_lt (by omega)
  rw [ceilDivN, key, Nat.mul_add_div hb, hz2]

/-- C1 counterexample inputs evaluated: with reserves
virtualSol = 1, virtualToken = 10, real = 100 and one lamport in, the code
returns 4 while the formula of the spec sentence returns 5 (the division
is exact, so floor + 1 exceeds the ceiling); and with an all-zero reserves
object and one lamport in, the code returns -1, not 0. -/
theorem buyQuote_spec_formula_cex :
    buyQuote 1 (some ⟨1, 10, 100⟩) = 4 ∧ claimQuote 1 (some ⟨1, 10, 100⟩) = 5 ∧
    buyQuote 1 (some ⟨1, 10, 100⟩) ≠ claimQuote 1 (some ⟨1, 10, 100⟩) ∧
    buyQuote 1 (some ⟨0, 0, 0⟩) = -1 := by decide

/-- C1: closed form of buyQuote.  For positive input the output is
virtualTokenReserves minus the ceiling of the constant product over the
new sol reserves, minus one more exactly when that division is exact,
clamped to realTokenReserves; zero input or a missing reserves object
yields 0 (and the function is total, so no exception is possible). -/
theorem buyQuote_closed_form (r : Reserves) (s : ℕ) (hs : 0 < s) :
    buyQuote s (some r) =
      min ((r.virtualTokenReserves : ℤ) -
            (ceilDivN (r.virtualSolReserves * r.virtualTokenReserves)
              (r.virtualSolReserves + s) : ℤ) -
            (if (r.virtualSolReserves + s) ∣ (r.virtualSolReserves * r.virtualTokenReserves)
              then 1 else 0))
          (r.realTokenReserves : ℤ)
    ∧ buyQuote 0 (some r) = 0
    ∧ buyQuote s none = 0 := by
  have hb : 0 < r.virtualSolReserves + s := by omega
  have hs0 : s ≠ 0 := by omega
  refine ⟨?_, by simp [buyQuote], by simp [buyQuote]⟩
  simp only [buyQuote, if_neg hs0]
  congr 1
  by_cases hd : (r.virtualSolReserves + s) ∣ (r.virtualSolReserves * r.virtualTokenReserves)
  · rw [ceilDivN_dvd _ _ hb hd, if_pos hd]
    push_cast
    ring
  · rw [ceilDivN_not_dvd _ _ hb hd, if_neg hd]
    push_cast
    ring

/-- C1 witness: the closed form applied at a concrete positive input. -/
theorem buyQuote_closed_form_witness :
    0 < 5 ∧
    (buyQuote 5 (some ⟨100, 30, 20⟩) =
      min ((30 : ℤ) - (ceilDivN (100 * 30) (100 + 5) : ℤ) -
            (if (100 + 5) ∣ (100 * 30) then 1 else 0)) (20 : ℤ)
      ∧ buyQuote 0 (some ⟨100, 30, 20⟩) = 0
      ∧ buyQuote 5 none = 0) :=
  ⟨by decide, buyQuote_closed_form ⟨100, 30, 20⟩ 5 (by decide)⟩

lemma buyQuote_zero (ro : Option Reserves) : buyQuote 0 ro = 0 := by
  cases ro <;> simp [buyQuote]

lemma buyQuote_pos (r : Reserves) (s : ℕ) (hs : s ≠ 0) :
    buyQuote s (some r) =
      min ((r.virtualTokenReserves : ℤ) -
          ((r.virtualSolReserves * r.virtualTokenReserves / (r.virtualSolReserves + s) + 1 : ℕ) : ℤ))
        (r.realTokenReserves : ℤ) := by
  simp [buyQuote, hs]

/-- C3 counterexample inputs evaluated: with an all-zero reserves object
the quote for input 0 is 0 but the quote for input 1 is -1, so the output
is not monotonically non-decreasing in the input over all liquidity
states with nonnegative fields. -/
theorem buyQuote_monotone_cex :
    buyQuote 0 (some ⟨0, 0, 5⟩) = 0 ∧ buyQuote 1 (some ⟨0, 0, 5⟩) = -1 ∧
    (0 : ℕ) ≤ 1 ∧ ¬ ((0 : ℤ) ≤ -1) := by decide

/-- C3: when the virtual token reserve is positive, buyQuote is
monotonically non-decreasing in the input amount; and unconditionally -
for every reserves object, of any field values, and every input - the
output never exceeds realTokenReserves. -/
theorem buyQuote_monotone_bounded (r : Reserves) (s1 s2 : ℕ)
    (hvt : 1 ≤ r.virtualTokenReserves) (h12 : s1 ≤ s2) :
    buyQuote s1 (some r) ≤ buyQuote s2 (some r)
    ∧ ∀ (r2 : Reserves) (s : ℕ), buyQuote s (some r2) ≤ (r2.realTokenReserves : ℤ) := by
  constructor
  · by_cases h1 : s1 = 0
    · subst h1
      rw [buyQuote_zero]
      by_cases h2 : s2 = 0
      · rw [h2, buyQuote_zero]
      · rw [buyQuote_pos r s2 h2]
        apply le_min
        · have hdiv : r.virtualSolReserves * r.virtualTokenReserves /
              (r.virtualSolReserves + s2) < r.virtualTokenReserves := by
            rw [Nat.div_lt_iff_lt_mul (by omega)]
            have hpos : 0 < r.virtualTokenReserves * s2 := by
              apply Nat.mul_pos <;> omega
            nlinarith
          omega
        · omega
    · have h2 : s2 ≠ 0 := by omega
      rw [buyQuote_pos r s1 h1, buyQuote_pos r s2 h2]
      apply min_le_min _ (le_refl _)
      have hdiv : r.virtualSolReserves * r.virtualTokenReserves / (r.virtualSolReserves + s2)
          ≤ r.virtualSolReserves * r.virtualTokenReserves / (r.virtualSolReserves + s1) :=
        Nat.div_le_div_left (by omega) (by omega)
      omega
  · intro r2 s
    by_cases h : s = 0
    · subst h
      rw [buyQuote_zero]
      positivity
    · rw [buyQuote_pos r2 s h]
      exact min_le_right _ _

/-- C3 witness: monotonicity applied at a concrete positive reserve
state and a concrete pair of inputs, with the unconditional bound for
every reserves object (in particular the all-zero one). -/
theorem buyQuote_monotone_bounded_witness :
    1 ≤ 10 ∧ 3 ≤ (7 : ℕ) ∧
    (buyQuote 3 (some ⟨1, 10, 100⟩) ≤ buyQuote 7 (some ⟨1, 10, 100⟩)
      ∧ ∀ (r2 : Reserves) (s : ℕ), buyQuote s (some r2) ≤ (r2.realTokenReserves : ℤ)) :=
  ⟨by decide, by decide, buyQuote_monotone_bounded ⟨1, 10, 100⟩ 3 7 (by decide) (by decide)⟩

/-
Bounds of the draw functions.
-/

lemma clampToNat_bounds (lo hi : ℕ) (x : ℤ) (h : lo ≤ hi) :
    lo ≤ ((max (lo : ℤ) (min (hi : ℤ) x))).toNat ∧
    ((max (lo : ℤ) (min (hi : ℤ) x))).toNat ≤ hi := by
  have h1 : (lo : ℤ) ≤ max (lo : ℤ) (min (hi : ℤ) x) := le_max_left _ _
  have h2 : max (lo : ℤ) (min (hi : ℤ) x) ≤ (hi : ℤ) :=
    max_le (by exact_mod_cast h) (min_le_left _ _)
  omega

lemma determineNextSellPoint_bounds (o : NextRands) :
    4 ≤ determineNextSellPoint o ∧ determineNextSellPoint o ≤ 17 := by
  unfold determineNextSellPoint
  exact clampToNat_bounds 4 17 _ (by omega)

lemma determineConsecutiveSells_core (aw : ℕ) (o : ConsecRands) :
    (min 7 aw ≤ 1 → determineConsecutiveSells aw o = 1) ∧
    (2 ≤ min 7 aw →
      1 ≤ determineConsecutiveSells aw o ∧ determineConsecutiveSells aw o ≤ min 7 aw) := by
  by_cases hmp : min 7 aw ≤ 1
  · refine ⟨fun _ => ?_, fun h2 => absurd h2 (by omega)⟩
    simp [determineConsecutiveSells, hmp]
  · refine ⟨fun h1 => absurd h1 hmp, fun h2 => ?_⟩
    simp only [determineConsecutiveSells, if_neg hmp]
    exact clampToNat_bounds 1 (min 7 aw) _ (by omega)

/-- C8: for at least one available wallet, the drawn consecutive-sell
count never exceeds the number of available wallets, whatever the random
draws are. -/
theorem determineConsecutiveSells_le_available (aw : ℕ) (o : ConsecRands) (h : 1 ≤ aw) :
    determineConsecutiveSells aw o ≤ aw := by
  rcases determineConsecutiveSells_core aw o with ⟨hone, hband⟩
  by_cases hmp : min 7 aw ≤ 1
  · rw [hone hmp]; omega
  · have := (hband (by omega)).2
    omega

/-- C8 witness: the hard cap applied at three available wallets and a
concrete draw. -/
theorem determineConsecutiveSells_le_available_witness :
    1 ≤ 3 ∧ determineConsecutiveSells 3 ⟨0, 0, 0⟩ ≤ 3 :=
  ⟨by decide, determineConsecutiveSells_le_available 3 ⟨0, 0, 0⟩ (by decide)⟩

/-- C10: determineConsecutiveSells returns exactly 1 whenever at most one
wallet is available (including zero), returns a value in
[1, min 7 availableWallets] for two or more, and is always at least 1 -
so the cap by available wallets only holds under availableWallets ≥ 1. -/
theorem determineConsecutiveSells_bounds (aw : ℕ) (o : ConsecRands) :
    (aw ≤ 1 → determineConsecutiveSells aw o = 1) ∧
    (2 ≤ aw →
      1 ≤ determineConsecutiveSells aw o ∧ determineConsecutiveSells aw o ≤ min 7 aw) ∧
    1 ≤ determineConsecutiveSells aw o := by
  rcases determineConsecutiveSells_core aw o with ⟨hone, hband⟩
  refine ⟨fun h => hone (by omega), fun h => hband (by omega), ?_⟩
  by_cases hmp : min 7 aw ≤ 1
  · rw [hone hmp]
  · exact (hband (by omega)).1

/-- C10 witness: the bounds applied at zero available wallets (count is
still 1) and at four available wallets. -/
theorem determineConsecutiveSells_bounds_witness :
    determineConsecutiveSells 0 ⟨0, 0, 0⟩ = 1 ∧
    (1 ≤ determineConsecutiveSells 4 ⟨0, 0, 0⟩ ∧
      determineConsecutiveSells 4 ⟨0, 0, 0⟩ ≤ min 7 4) :=
  ⟨(determineConsecutiveSells_bounds 0 ⟨0, 0, 0⟩).1 (by decide),
    (determineConsecutiveSells_bounds 4 ⟨0, 0, 0⟩).2.1 (by decide)⟩

lemma retryOffset_bounds (rr : ℚ) (h0 : 0 ≤ rr) (h1 : rr < 1) :
    2 ≤ retryOffset rr ∧ retryOffset rr ≤ 4 := by
  have hf0 : (0 : ℤ) ≤ Int.floor (rr * 3) := Int.floor_nonneg.mpr (by positivity)
  have hf2 : Int.floor (rr * 3) < 3 := by
    rw [Int.floor_lt]
    push_cast
    nlinarith
  unfold retryOffset
  omega

/-
Concrete draw outcomes used by the trace artifacts below: these show
which oracle numbers are realizable outputs of the draw functions.
-/

lemma determineNextSellPoint_hits_4 : determineNextSellPoint ⟨9/10, 0, 0⟩ = 4 := by
  unfold determineNextSellPoint jsRound
  norm_num
  rfl

lemma determineNextSellPoint_hits_17 : determineNextSellPoint ⟨9/10, 1/2, 0⟩ = 17 := by
  unfold determineNextSellPoint jsRound
  norm_num
  rfl

lemma determineConsecutiveSells_hits_1 : determineConsecutiveSells 4 ⟨9/10, 0, 0⟩ = 1 := by
  unfold determineConsecutiveSells
  norm_num

lemma determineConsecutiveSells_hits_2 : determineConsecutiveSells 4 ⟨0, 0, 0⟩ = 2 := by
  unfold determineConsecutiveSells jsRound
  norm_num [Int.floor_eq_iff]
  rfl

lemma retryOffset_at_0 : retryOffset 0 = 2 := by
  unfold retryOffset
  norm_num
  rfl

lemma retryOffset_at_half : retryOffset (1/2) = 3 := by
  unfold retryOffset
  norm_num [Int.floor_eq_iff]
  rfl

/-
Sizing policy (claim C9).
-/

/-- C9 counterexample inputs evaluated: a spendable balance of 20 with
draw 1/2 yields 5 (the 5 SOL cap), below the claimed 40 percent band
floor of 8; a spendable balance of 0.1 yields 0.09 (the minimum-trade
floor), above the claimed 80 percent band ceiling of 0.08; and at a
spendable balance of exactly 1 the drawn percentage can be 75 percent,
outside the 50-70 percent band the claim assigns to balances in [1,5]. -/
theorem direct_buy_amount_band_cex :
    0 ≤ (1/2 : ℚ) ∧ (1/2 : ℚ) < 1 ∧
    calculateDirectBuyAmount 20 (1/2) = 5 ∧ ¬ ((20 : ℚ) * (2/5) ≤ 5) ∧
    calculateDirectBuyAmount (1/10) 0 = 9/100 ∧ ((1/10 : ℚ) * (4/5) < 9/100) ∧
    directBuyPercentage 1 (3/4) = 3/4 ∧ ¬ ((3/4 : ℚ) ≤ 7/10) := by
  refine ⟨by norm_num, by norm_num, ?_, by norm_num, ?_, by norm_num, ?_, by norm_num⟩
  · unfold calculateDirectBuyAmount directBuyPercentage
    norm_num [min_def, max_def]
  · unfold calculateDirectBuyAmount directBuyPercentage
    norm_num [min_def, max_def, Int.floor_eq_iff]
  · unfold directBuyPercentage
    norm_num

/-- C9: under dynamic sizing the spendable balance is the on-hand balance
minus the 0.05 reserve; the drawn percentage lies in the band picked by
the balance tier (with the boundary balance of exactly 1 falling in the
60-80 band); and the computed amount equals balance times percentage only
after capping at 5, raising to min(0.1, 0.9 * balance) and rounding down
to 6 decimals - it lies within the band of the spendable balance, up to
the downward rounding, exactly when neither cap binds. -/
theorem direct_buy_amount_spec (w r : ℚ) (h0 : 0 ≤ r) (h1 : r < 1) :
    effectiveBalanceOf w = max 0 (w - 1/20) ∧
    ((5 < effectiveBalanceOf w →
        2/5 ≤ directBuyPercentage (effectiveBalanceOf w) r ∧
        directBuyPercentage (effectiveBalanceOf w) r < 3/5) ∧
     (1 < effectiveBalanceOf w → effectiveBalanceOf w ≤ 5 →
        1/2 ≤ directBuyPercentage (effectiveBalanceOf w) r ∧
        directBuyPercentage (effectiveBalanceOf w) r < 7/10) ∧
     (effectiveBalanceOf w ≤ 1 →
        3/5 ≤ directBuyPercentage (effectiveBalanceOf w) r ∧
        directBuyPercentage (effectiveBalanceOf w) r < 4/5)) ∧
    (effectiveBalanceOf w * directBuyPercentage (effectiveBalanceOf w) r ≤ 5 →
      min (1/10) (effectiveBalanceOf w * (9/10)) ≤
        effectiveBalanceOf w * directBuyPercentage (effectiveBalanceOf w) r →
      effectiveBalanceOf w * directBuyPercentage (effectiveBalanceOf w) r - 1/1000000 <
          calculateDirectBuyAmount (effectiveBalanceOf w) r ∧
        calculateDirectBuyAmount (effectiveBalanceOf w) r ≤
          effectiveBalanceOf w * directBuyPercentage (effectiveBalanceOf w) r) := by
  set eb := effectiveBalanceOf w with heb
  refine ⟨heb ▸ rfl, ⟨?_, ?_, ?_⟩, ?_⟩
  · intro h5
    unfold directBuyPercentage
    rw [if_pos h5]
    constructor <;> nlinarith
  · intro hgt hle
    unfold directBuyPercentage
    rw [if_neg (by linarith), if_pos hgt]
    constructor <;> nlinarith
  · intro hle
    unfold directBuyPercentage
    rw [if_neg (by linarith), if_neg (by linarith)]
    constructor <;> nlinarith
  · intro hcap hfloor
    set x := eb * directBuyPercentage eb r with hx
    have hmin : min x 5 = x := min_eq_left hcap
    have hmax : max (min x 5) (min (1/10) (eb * (9/10))) = x := by
      rw [hmin]
      exact max_eq_left hfloor
    have hres : calculateDirectBuyAmount eb r =
        ((Int.floor (x * 1000000) : ℤ) : ℚ) / 1000000 := by
      simp only [calculateDirectBuyAmount]
      rw [← hx, hmax]
    rw [hres]
    have hle2 : ((Int.floor (x * 1000000) : ℤ) : ℚ) ≤ x * 1000000 := Int.floor_le _
    have hgt2 : x * 1000000 - 1 < ((Int.floor (x * 1000000) : ℤ) : ℚ) :=
      Int.sub_one_lt_floor _
    constructor <;> [nlinarith; nlinarith]

/-- C9 witness: the band statement applied at a wallet balance of 3 SOL
and draw 0 (spendable balance 2.95, middle tier). -/
theorem direct_buy_amount_spec_witness :
    1 < effectiveBalanceOf 3 ∧ effectiveBalanceOf 3 ≤ 5 ∧
    (1/2 ≤ directBuyPercentage (effectiveBalanceOf 3) 0 ∧
      directBuyPercentage (effectiveBalanceOf 3) 0 < 7/10) := by
  have h := (direct_buy_amount_spec 3 0 (le_refl 0) (by norm_num)).2.1.2.1
  refine ⟨?_, ?_, h ?_ ?_⟩ <;> (unfold effectiveBalanceOf; norm_num)

/-
List and map helper lemmas for the session state.
-/

lemma mem_addUnique {l : List ℕ} {a x : ℕ} : x ∈ addUnique l a ↔ x ∈ l ∨ x = a := by
  unfold addUnique
  split
  · rename_i h
    constructor
    · exact Or.inl
    · rintro (hx | rfl)
      · exact hx
      · exact h
  · simp [List.mem_append]

lemma subset_addUnique (l : List ℕ) (a : ℕ) : l ⊆ addUnique l a :=
  fun _ hx => mem_addUnique.mpr (Or.inl hx)

lemma addUnique_nodup {l : List ℕ} {a : ℕ} (h : l.Nodup) : (addUnique l a).Nodup := by
  unfold addUnique
  split
  · exact h
  · rename_i hna
    simp [List.nodup_append, h, hna]

lemma lookup_rcSet (m : List (ℕ × ℕ)) (pk v pk2 : ℕ) :
    (rcSet m pk v).lookup pk2 = if pk2 = pk then some v else m.lookup pk2 := by
  by_cases h : pk2 = pk
  · simp [rcSet, List.lookup, h]
  · have hb : (pk2 == pk) = false := beq_eq_false_iff_ne.mpr h
    simp [rcSet, List.lookup, hb, h]

lemma rcGet_rcSet (m : List (ℕ × ℕ)) (pk v pk2 : ℕ) :
    rcGet (rcSet m pk v) pk2 = if pk2 = pk then v else rcGet m pk2 := by
  rw [rcGet, lookup_rcSet]
  by_cases h : pk2 = pk <;> simp [h, rcGet]

lemma rcGet_lookup_of_ne_zero {m : List (ℕ × ℕ)} {pk : ℕ} (h : rcGet m pk ≠ 0) :
    m.lookup pk = some (rcGet m pk) := by
  unfold rcGet at h ⊢
  cases hq : m.lookup pk with
  | none =>
    rw [hq] at h
    simp at h
  | some v => simp

lemma mem_eligibleWallets {sbw usw : List ℕ} {last : Option ℕ} {pk : ℕ} :
    pk ∈ eligibleWallets sbw usw last ↔
      pk ∈ sbw ∧ pk ∉ usw ∧ ¬(last = some pk ∧ 1 < sbw.length) := by
  simp only [eligibleWallets, List.mem_filter, decide_eq_true_eq]

lemma getD_mod_mem (l : List ℕ) (i : ℕ) (h : l ≠ []) : l.getD (i % l.length) 0 ∈ l := by
  have hlt : i % l.length < l.length := Nat.mod_lt _ (List.length_pos.mpr h)
  rw [List.getD_eq_getElem?_getD, List.getElem?_eq_getElem hlt]
  simp only [Option.getD_some]
  exact List.getElem_mem hlt

lemma one_lt_length_of_two_mem {l : List ℕ} {a b : ℕ} (ha : a ∈ l) (hb : b ∈ l)
    (hab : a ≠ b) : 1 < l.length := by
  rcases l with _ | ⟨x, _ | ⟨y, t⟩⟩
  · simp at ha
  · simp at ha hb
    subst ha
    subst hb
    exact absurd rfl hab
  · simp

/-- C2 ingredient and C6: a wallet recorded in usedSellWallets never
passes the eligible filter of executeSessionSell. -/
lemma usedSellWallets_not_eligible {sbw usw : List ℕ} {last : Option ℕ} {pk : ℕ}
    (h : pk ∈ usw) : pk ∉ eligibleWallets sbw usw last := by
  intro hmem
  exact (mem_eligibleWallets.mp hmem).2.1 h

/-- C6: executeSessionSell never proceeds with the most recently used
wallet while some other wallet still holds tokens and has not sold; and
when the most recently used wallet is the only wallet that holds tokens
and has not sold, the sell does proceed with it (directly when it is the
sole map entry, via the fallback branch otherwise). -/
theorem sell_select_excludes_last_buyer (sbw usw : List ℕ) (l : ℕ) (idx : ℕ) :
    (∀ w, w ∈ sbw → w ∉ usw → w ≠ l → sellSelect sbw usw (some l) idx ≠ some l) ∧
    (sbw.filter (fun pk => decide (pk ∉ usw)) = [l] →
      sellSelect sbw usw (some l) idx = some l) := by
  constructor
  · intro w hw hwu hwl heq
    have hwe : w ∈ eligibleWallets sbw usw (some l) := by
      refine mem_eligibleWallets.mpr ⟨hw, hwu, ?_⟩
      rintro ⟨h1, -⟩
      exact hwl (Option.some.inj h1).symm
    have hnonnil : eligibleWallets sbw usw (some l) ≠ [] := by
      intro h0
      rw [h0] at hwe
      simp at hwe
    have hne : (eligibleWallets sbw usw (some l)).isEmpty = false := by
      rw [List.isEmpty_eq_false_iff_exists_mem]
      exact ⟨w, hwe⟩
    simp only [sellSelect, hne, Bool.false_eq_true, if_false] at heq
    have hsel := getD_mod_mem (eligibleWallets sbw usw (some l)) idx hnonnil
    rw [Option.some.inj heq] at hsel
    rcases mem_eligibleWallets.mp hsel with ⟨hls, -, hno⟩
    exact hno ⟨rfl, one_lt_length_of_two_mem hw hls hwl⟩
  · intro hf
    have hlmem : l ∈ sbw ∧ l ∉ usw := by
      have : l ∈ sbw.filter (fun pk => decide (pk ∉ usw)) := by
        rw [hf]
        exact List.mem_singleton_self l
      have h2 := List.mem_filter.mp this
      exact ⟨h2.1, by simpa using h2.2⟩
    have honly : ∀ w, w ∈ sbw → w ∉ usw → w = l := by
      intro w hw hwu
      have : w ∈ sbw.filter (fun pk => decide (pk ∉ usw)) :=
        List.mem_filter.mpr ⟨hw, by simpa⟩
      rw [hf] at this
      simpa using this
    by_cases hlen : 1 < sbw.length
    · have helig : eligibleWallets sbw usw (some l) = [] := by
        rw [List.eq_nil_iff_forall_not_mem]
        intro x hx
        rcases mem_eligibleWallets.mp hx with ⟨hxs, hxu, hxno⟩
        have hxl := honly x hxs hxu
        subst hxl
        exact hxno ⟨rfl, hlen⟩
      simp only [sellSelect, helig, List.isEmpty_nil, if_true]
      rw [if_pos hlmem]
    · have hsbw : sbw = [l] := by
        rcases sbw with _ | ⟨x, _ | ⟨y, t⟩⟩
        · exact absurd hlmem.1 (by simp)
        · have hx := hlmem.1
          simp at hx
          rw [hx]
        · simp at hlen
      subst hsbw
      have helig : eligibleWallets [l] usw (some l) = [l] := by
        simp only [eligibleWallets]
        rw [List.filter_cons]
        simp [hlmem.2]
      simp only [sellSelect, helig]
      simp [Nat.mod_one]

/-- C6 witness: with wallets 5 and 6 holding tokens and 6 the most recent
buyer, the sell never proceeds with 6; with 6 the only holder, it does. -/
theorem sell_select_excludes_last_buyer_witness :
    sellSelect [5, 6] [] (some 6) 0 ≠ some 6 ∧ sellSelect [6] [] (some 6) 0 = some 6 :=
  ⟨(sell_select_excludes_last_buyer [5, 6] [] 6 0).1 5 (by decide) (by decide) (by decide),
    (sell_select_excludes_last_buyer [6] [] 6 0).2 (by decide)⟩

/-
Field preservation through the sell path: selling touches only
successfulBuyWallets, usedSellWallets (which only grows) and, in
sellPhase, the threshold.
-/

/-- Which fields one executeSessionSell call leaves unchanged, and that
usedSellWallets only grows and stays duplicate-free. -/
lemma executeSessionSell_fields (s : SessionState) (a : SellAttempt) (fb : Bool)
    (last : Option ℕ) :
    (executeSessionSell s a fb last).1.rebuyCountMap = s.rebuyCountMap ∧
    (executeSessionSell s a fb last).1.blacklistedWallets = s.blacklistedWallets ∧
    (executeSessionSell s a fb last).1.walletCycle = s.walletCycle ∧
    (executeSessionSell s a fb last).1.buyCounter = s.buyCounter ∧
    (executeSessionSell s a fb last).1.buysUntilNextSell = s.buysUntilNextSell ∧
    (executeSessionSell s a fb last).1.stopped = s.stopped ∧
    s.usedSellWallets ⊆ (executeSessionSell s a fb last).1.usedSellWallets ∧
    (s.usedSellWallets.Nodup → (executeSessionSell s a fb last).1.usedSellWallets.Nodup) := by
  cases hsel : sellSelect s.successfulBuyWallets s.usedSellWallets last a.idx with
  | none =>
    simp only [executeSessionSell, hsel]
    refine ⟨?_, ?_, ?_, ?_, ?_, ?_, ?_, ?_⟩ <;>
      first
        | exact trivial
        | rfl
        | exact fun _ hx => hx
        | exact fun h => h
  | some pk =>
    by_cases he : (eligibleWallets s.successfulBuyWallets s.usedSellWallets last).isEmpty = true
    all_goals
      first
        | simp only [executeSessionSell, hsel, he, if_true]
        | simp only [executeSessionSell, hsel, if_neg he]
    all_goals
      refine ⟨?_, ?_, ?_, ?_, ?_, ?_, ?_, ?_⟩ <;>
        first
          | exact trivial
          | rfl
          | exact subset_addUnique _ _
          | exact fun h => addUnique_nodup h

/-- The same preservation statement for the whole sells loop. -/
lemma sellsLoop_fields :
    ∀ (n : ℕ) (s : SessionState) (atts : List SellAttempt) (fb : Bool) (last : Option ℕ),
    (sellsLoop n s atts fb last).2.1.rebuyCountMap = s.rebuyCountMap ∧
    (sellsLoop n s atts fb last).2.1.blacklistedWallets = s.blacklistedWallets ∧
    (sellsLoop n s atts fb last).2.1.walletCycle = s.walletCycle ∧
    (sellsLoop n s atts fb last).2.1.buyCounter = s.buyCounter ∧
    (sellsLoop n s atts fb last).2.1.buysUntilNextSell = s.buysUntilNextSell ∧
    (sellsLoop n s atts fb last).2.1.stopped = s.stopped ∧
    s.usedSellWallets ⊆ (sellsLoop n s atts fb last).2.1.usedSellWallets ∧
    (s.usedSellWallets.Nodup → (sellsLoop n s atts fb last).2.1.usedSellWallets.Nodup) := by
  intro n
  induction n with
  | zero => exact fun s atts fb last => ⟨rfl, rfl, rfl, rfl, rfl, rfl, fun _ hx => hx, fun h => h⟩
  | succ f ih =>
    intro s atts fb last
    simp only [sellsLoop]
    rcases hsell : executeSessionSell s (atts.headD ⟨0, false⟩) fb last with ⟨s1, res, iss⟩
    have hf := executeSessionSell_fields s (atts.headD ⟨0, false⟩) fb last
    rw [hsell] at hf
    cases res with
    | none => exact ⟨hf.1, hf.2.1, hf.2.2.1, hf.2.2.2.1, hf.2.2.2.2.1, hf.2.2.2.2.2.1,
        hf.2.2.2.2.2.2.1, hf.2.2.2.2.2.2.2⟩
    | some pk =>
      have hr := ih s1 atts.tail fb (some pk)
      refine ⟨by rw [hr.1, hf.1], by rw [hr.2.1, hf.2.1], by rw [hr.2.2.1, hf.2.2.1],
        by rw [hr.2.2.2.1, hf.2.2.2.1], by rw [hr.2.2.2.2.1, hf.2.2.2.2.1],
        by rw [hr.2.2.2.2.2.1, hf.2.2.2.2.2.1],
        fun x hx => hr.2.2.2.2.2.2.1 (hf.2.2.2.2.2.2.1 hx),
        fun h => hr.2.2.2.2.2.2.2 (hf.2.2.2.2.2.2.2 h)⟩

/-- The same preservation statement for executeSessionSells. -/
lemma executeSessionSells_fields (s : SessionState) (so : SellOracle) (b : ℕ) :
    (executeSessionSells s so b).1.rebuyCountMap = s.rebuyCountMap ∧
    (executeSessionSells s so b).1.blacklistedWallets = s.blacklistedWallets ∧
    (executeSessionSells s so b).1.walletCycle = s.walletCycle ∧
    (executeSessionSells s so b).1.buyCounter = s.buyCounter ∧
    (executeSessionSells s so b).1.buysUntilNextSell = s.buysUntilNextSell ∧
    (executeSessionSells s so b).1.stopped = s.stopped ∧
    s.usedSellWallets ⊆ (executeSessionSells s so b).1.usedSellWallets ∧
    (s.usedSellWallets.Nodup → (executeSessionSells s so b).1.usedSellWallets.Nodup) := by
  by_cases ha : (s.successfulBuyWallets.filter
      (fun pk => decide (pk ∉ s.usedSellWallets))).length = 0
  · simp only [executeSessionSells, ha, if_true]
    refine ⟨?_, ?_, ?_, ?_, ?_, ?_, ?_, ?_⟩ <;>
      first
        | exact trivial
        | rfl
        | exact fun _ hx => hx
        | exact fun h => h
  · simp only [executeSessionSells, if_neg ha]
    exact sellsLoop_fields _ s so.attempts so.fallbackSuccess (some b)

/-- sellPhase additionally rewrites the threshold but nothing else. -/
lemma sellPhase_fields (s : SessionState) (so : SellOracle) (dN dR b : ℕ) :
    (sellPhase s so dN dR b).1.rebuyCountMap = s.rebuyCountMap ∧
    (sellPhase s so dN dR b).1.blacklistedWallets = s.blacklistedWallets ∧
    (sellPhase s so dN dR b).1.walletCycle = s.walletCycle ∧
    (sellPhase s so dN dR b).1.buyCounter = s.buyCounter ∧
    (sellPhase s so dN dR b).1.stopped = s.stopped ∧
    s.usedSellWallets ⊆ (sellPhase s so dN dR b).1.usedSellWallets ∧
    (s.usedSellWallets.Nodup → (sellPhase s so dN dR b).1.usedSellWallets.Nodup) := by
  have hf := executeSessionSells_fields s so b
  by_cases ht : s.buysUntilNextSell ≤ s.buyCounter
  · by_cases hb : (executeSessionSells s so b).2.1 = true
    · simp only [sellPhase, if_pos ht, hb, if_true]
      refine ⟨?_, ?_, ?_, ?_, ?_, ?_, ?_⟩ <;>
        first
          | exact trivial
          | rfl
          | exact hf.1
          | exact hf.2.1
          | exact hf.2.2.1
          | exact hf.2.2.2.1
          | exact hf.2.2.2.2.2.1
          | exact hf.2.2.2.2.2.2.1
          | exact hf.2.2.2.2.2.2.2
          | exact fun _ hx => hx
          | exact fun h => h
    · simp only [sellPhase, if_pos ht, hb, Bool.false_eq_true, if_false]
      refine ⟨?_, ?_, ?_, ?_, ?_, ?_, ?_⟩ <;>
        first
          | exact trivial
          | rfl
          | exact hf.1
          | exact hf.2.1
          | exact hf.2.2.1
          | exact hf.2.2.2.1
          | exact hf.2.2.2.2.2.1
          | exact hf.2.2.2.2.2.2.1
          | exact hf.2.2.2.2.2.2.2
          | exact fun _ hx => hx
          | exact fun h => h
  · simp only [sellPhase, if_neg ht]
    refine ⟨?_, ?_, ?_, ?_, ?_, ?_, ?_⟩ <;>
      first
        | exact trivial
        | rfl
        | exact hf.1
        | exact hf.2.1
        | exact hf.2.2.1
        | exact hf.2.2.2.1
        | exact hf.2.2.2.2.2.1
        | exact hf.2.2.2.2.2.2.1
        | exact hf.2.2.2.2.2.2.2
        | exact fun _ hx => hx
        | exact fun h => h

/-- The refresh rewrites only blacklist, cycle and the stopped flag. -/
lemma refresh_fields (cfg : Config) (s : SessionState) (rcalc : ℕ → RebuyCalc) (pi : ℕ) :
    (refresh cfg s rcalc pi).rebuyCountMap = s.rebuyCountMap ∧
    (refresh cfg s rcalc pi).usedSellWallets = s.usedSellWallets ∧
    (refresh cfg s rcalc pi).successfulBuyWallets = s.successfulBuyWallets ∧
    (refresh cfg s rcalc pi).buyCounter = s.buyCounter ∧
    (refresh cfg s rcalc pi).buysUntilNextSell = s.buysUntilNextSell := by
  by_cases he : (refreshFold cfg s.rebuyCountMap rcalc s.usedSellWallets
      s.blacklistedWallets []).2.isEmpty = true
  · simp only [refresh, he, if_true]
    refine ⟨?_, ?_, ?_, ?_, ?_⟩ <;> first | exact trivial | rfl
  · simp only [refresh, if_neg he]
    refine ⟨?_, ?_, ?_, ?_, ?_⟩ <;> first | exact trivial | rfl

/-- buySuccessState rewrites only the counter, the map and
successfulBuyWallets. -/
lemma buySuccessState_fields (s : SessionState) (e : WalletCycleEntry) :
    (buySuccessState s e).usedSellWallets = s.usedSellWallets ∧
    (buySuccessState s e).blacklistedWallets = s.blacklistedWallets ∧
    (buySuccessState s e).walletCycle = s.walletCycle ∧
    (buySuccessState s e).buysUntilNextSell = s.buysUntilNextSell ∧
    (buySuccessState s e).stopped = s.stopped ∧
    (buySuccessState s e).buyCounter = s.buyCounter + 1 := by
  by_cases hr : e.isRebuy = true
  · simp only [buySuccessState, hr, if_true]
    refine ⟨?_, ?_, ?_, ?_, ?_, ?_⟩ <;> first | exact trivial | rfl
  · simp only [buySuccessState, hr, Bool.false_eq_true, if_false]
    refine ⟨?_, ?_, ?_, ?_, ?_, ?_⟩ <;> first | exact trivial | rfl

/-- C2 ingredient: no step of the loop ever removes a wallet from
usedSellWallets. -/
lemma step_usw_mono (cfg : Config) (s : SessionState) (ev : Event) :
    s.usedSellWallets ⊆ (step cfg s ev).usedSellWallets := by
  unfold step stepT
  by_cases hp : ev.paused = true
  · simp only [hp, if_true]
    exact fun _ hx => hx
  · simp only [hp, Bool.false_eq_true, if_false]
    by_cases hst : s.stopped = true
    · simp only [hst, if_true]
      exact fun _ hx => hx
    · simp only [hst, Bool.false_eq_true, if_false]
      set s1 := (if s.walletCycle.isEmpty then refresh cfg s ev.rebuyCalc ev.permIdx else s)
        with hs1
      have husw : s1.usedSellWallets = s.usedSellWallets := by
        rw [hs1]
        split
        · exact (refresh_fields cfg s ev.rebuyCalc ev.permIdx).2.1
        · rfl
      cases hcyc : s1.walletCycle with
      | nil =>
        simp only [hcyc]
        rw [← husw]
        exact fun _ hx => hx
      | cons e rest =>
        simp only [hcyc]
        cases ho : ev.outcome with
        | skip =>
          simp only [tickCore]
          rw [← husw]
          exact fun _ hx => hx
        | buyFail =>
          simp only [tickCore]
          rw [← husw]
          exact fun _ hx => hx
        | buyOk so dN dR =>
          simp only [tickCore]
          intro x hx
          have hb := (buySuccessState_fields { s1 with walletCycle := rest } e).1
          have hp2 := (sellPhase_fields (buySuccessState { s1 with walletCycle := rest } e)
            so dN dR e.pubKey).2.2.2.2.2.1
          apply hp2
          rw [hb]
          show x ∈ s1.usedSellWallets
          rw [husw]
          exact hx

/-
Run-level lemmas: one appended event is one step, and usedSellWallets
only ever grows along a run.
-/

lemma runS_append (cfg : Config) (evs : List Event) (ev : Event) :
    runS cfg (evs ++ [ev]) = step cfg (runS cfg evs) ev := by
  unfold runS
  rw [List.foldl_append]
  rfl

lemma foldl_usw_mono (cfg : Config) :
    ∀ (l : List Event) (s : SessionState),
    s.usedSellWallets ⊆ (l.foldl (step cfg) s).usedSellWallets := by
  intro l
  induction l with
  | nil => exact fun s _ hx => hx
  | cons e t ih =>
    intro s x hx
    exact ih (step cfg s e) (step_usw_mono cfg s e hx)

lemma runS_usw_mono (cfg : Config) (evs evsB : List Event) :
    (runS cfg evs).usedSellWallets ⊆ (runS cfg (evs ++ evsB)).usedSellWallets := by
  unfold runS
  rw [List.foldl_append]
  exact foldl_usw_mono cfg evsB _

/-- C2 counterexample trace evaluated: wallet 0 sells at the fourth buy
(entering usedSellWallets), is readmitted by the cycle refresh and
completes a successful rebuy (it is back in successfulBuyWallets with
rebuy count 1, i.e. Holding), yet it is still absent from the
sell-eligible set of executeSessionSell, because nothing ever removes it
from usedSellWallets. -/
theorem rebuy_stays_sell_ineligible_cex :
    0 ∈ (runS cfgFour evsToSell).usedSellWallets ∧
    0 ∈ (runS cfgFour evsRebuy).successfulBuyWallets ∧
    rcGet (runS cfgFour evsRebuy).rebuyCountMap 0 = 1 ∧
    0 ∈ (runS cfgFour evsRebuy).usedSellWallets ∧
    0 ∉ eligibleWallets (runS cfgFour evsRebuy).successfulBuyWallets
        (runS cfgFour evsRebuy).usedSellWallets none := by decide

/-- C2: a wallet in usedSellWallets is never in the sell-eligible set of
executeSessionSell, in any state and for any most-recent-buyer exclusion;
and membership in usedSellWallets persists through every further step of
the loop, so once a wallet has been used for a sell it stays outside the
sell-eligible set for the rest of the session. -/
theorem usedForSell_never_sell_eligible (cfg : Config) (evs evsB : List Event)
    (last : Option ℕ) (pk : ℕ) (h : pk ∈ (runS cfg evs).usedSellWallets) :
    (∀ sbw usw : List ℕ, pk ∈ usw → pk ∉ eligibleWallets sbw usw last) ∧
    pk ∈ (runS cfg (evs ++ evsB)).usedSellWallets ∧
    pk ∉ eligibleWallets (runS cfg (evs ++ evsB)).successfulBuyWallets
        (runS cfg (evs ++ evsB)).usedSellWallets last := by
  refine ⟨fun sbw usw hu => usedSellWallets_not_eligible hu, ?_, ?_⟩
  · exact runS_usw_mono cfg evs evsB h
  · exact usedSellWallets_not_eligible (runS_usw_mono cfg evs evsB h)

/-- C2 witness: the persistence statement applied to wallet 0 after the
sell trace, across one further iteration. -/
theorem usedForSell_never_sell_eligible_witness :
    0 ∈ (runS cfgFour evsToSell).usedSellWallets ∧
    (0 ∈ (runS cfgFour (evsToSell ++ [evBuyOk])).usedSellWallets ∧
      0 ∉ eligibleWallets (runS cfgFour (evsToSell ++ [evBuyOk])).successfulBuyWallets
          (runS cfgFour (evsToSell ++ [evBuyOk])).usedSellWallets none) :=
  ⟨by decide, (usedForSell_never_sell_eligible cfgFour evsToSell [evBuyOk] none 0 (by decide)).2⟩

/-- C5 counterexample evaluated: an iteration that starts unpaused runs a
two-sell sequence; the pause flag is set before each of the two sells
(the recorded flags are true, true), yet both sell transactions are
issued - executeSessionSells contains no pause poll between sells. -/
theorem sells_ignore_pause_cex :
    sellPauseFlags evSellsWhilePaused = [true, true] ∧
    (stepT cfgFour (runS cfgFour [evBuyOk, evBuyOk, evBuyOk]) evSellsWhilePaused).2.sellsIssued
      = [0, 1] := by decide

/-- C5: the pause flag is polled at the top of each loop iteration - an
iteration that sees the flag set performs no refresh, no buy attempt and
no sell; but the multi-sell sequence never reads the flag, so replacing
the flag values observed before the individual sells changes nothing
about what the iteration does. -/
theorem pause_polled_between_attempts_only (cfg : Config) (s : SessionState) (ev : Event)
    (bs : List Bool) :
    (ev.paused = true → stepT cfg s ev = (s, ⟨none, []⟩)) ∧
    stepT cfg s (withSellPauseFlags ev bs) = stepT cfg s ev := by
  constructor
  · intro hp
    unfold stepT
    rw [if_pos hp]
  · rcases ev with ⟨p, rc, pi, o⟩
    cases o <;> rfl

/-- C5 witness: a paused iteration leaves the initial state untouched and
issues nothing. -/
theorem pause_polled_between_attempts_only_witness :
    stepT cfgFour (initState cfgFour) ⟨true, fun _ => RebuyCalc.ok, 0, TickOutcome.skip⟩
      = (initState cfgFour, ⟨none, []⟩) :=
  (pause_polled_between_attempts_only cfgFour (initState cfgFour)
    ⟨true, fun _ => RebuyCalc.ok, 0, TickOutcome.skip⟩ []).1 rfl

/-- C7 counterexample evaluated: two runs that are identical up to the
failed sell sequence, differing only in the Math.random draw of the
retry interval (0 versus one half), reschedule the next attempt after 2
respectively 3 further buys - the number of additional buys after a
failed sequence is a draw from 2..4, not a fixed number. -/
theorem sell_retry_offset_not_fixed_cex :
    retryOffset 0 = 2 ∧ retryOffset (1/2) = 3 ∧
    (runS cfgFour ([evBuyOk, evBuyOk, evBuyOk] ++ [evSellFail 2])).buyCounter = 4 ∧
    (runS cfgFour ([evBuyOk, evBuyOk, evBuyOk] ++ [evSellFail 2])).buysUntilNextSell = 6 ∧
    (runS cfgFour ([evBuyOk, evBuyOk, evBuyOk] ++ [evSellFail 3])).buyCounter = 4 ∧
    (runS cfgFour ([evBuyOk, evBuyOk, evBuyOk] ++ [evSellFail 3])).buysUntilNextSell = 7 :=
  ⟨retryOffset_at_0, retryOffset_at_half, by decide, by decide, by decide, by decide⟩

/-- C7: when the buy counter has reached the threshold, a sell sequence
with at least one reported successful sell sets the next threshold to the
new buy counter plus a fresh determineNextSellPoint draw (always in
4..17); a sequence with zero reported successful sells sets it to the buy
counter plus the retry draw, which lies in 2..4 for every Math.random
outcome in [0,1). -/
theorem next_sell_threshold_update (s : SessionState) (so : SellOracle) (nd : NextRands)
    (rr : ℚ) (buyer : ℕ) (htrig : s.buysUntilNextSell ≤ s.buyCounter)
    (h0 : 0 ≤ rr) (h1 : rr < 1) :
    ((executeSessionSells s so buyer).2.1 = true →
      (sellPhase s so (determineNextSellPoint nd) (retryOffset rr) buyer).1.buysUntilNextSell =
        (sellPhase s so (determineNextSellPoint nd) (retryOffset rr) buyer).1.buyCounter +
          determineNextSellPoint nd ∧
      4 ≤ determineNextSellPoint nd ∧ determineNextSellPoint nd ≤ 17) ∧
    ((executeSessionSells s so buyer).2.1 = false →
      (sellPhase s so (determineNextSellPoint nd) (retryOffset rr) buyer).1.buysUntilNextSell =
        (sellPhase s so (determineNextSellPoint nd) (retryOffset rr) buyer).1.buyCounter +
          retryOffset rr ∧
      2 ≤ retryOffset rr ∧ retryOffset rr ≤ 4) := by
  constructor
  · intro hb
    refine ⟨?_, determineNextSellPoint_bounds nd⟩
    simp only [sellPhase, if_pos htrig, hb, if_true]
  · intro hb
    refine ⟨?_, retryOffset_bounds rr h0 h1⟩
    simp only [sellPhase, if_pos htrig, hb, Bool.false_eq_true, if_false]

/-- C7 witness: the failure branch applied at a state whose sell sequence
finds no available wallet, with retry draw 0. -/
theorem next_sell_threshold_update_witness :
    (sellPhase ⟨5, [], [], [], [], 5, [], false⟩ soSellFailOnce
        (determineNextSellPoint ⟨9/10, 0, 0⟩) (retryOffset 0) 9).1.buysUntilNextSell =
      (sellPhase ⟨5, [], [], [], [], 5, [], false⟩ soSellFailOnce
        (determineNextSellPoint ⟨9/10, 0, 0⟩) (retryOffset 0) 9).1.buyCounter + retryOffset 0 ∧
    2 ≤ retryOffset 0 ∧ retryOffset 0 ≤ 4 :=
  (next_sell_threshold_update ⟨5, [], [], [], [], 5, [], false⟩ soSellFailOnce ⟨9/10, 0, 0⟩
    0 9 (by decide) (by norm_num) (by norm_num)).2 (by decide)

/-
Claim C4: the refresh fold, the shuffle, and the loop invariant.
-/

lemma pickPerm_perm (i : ℕ) (l : List α) : (pickPerm i l).Perm l := by
  unfold pickPerm
  split
  · exact List.mem_permutations.mp (List.get?_mem (by assumption))
  · exact List.Perm.refl l

lemma mem_pickPerm {i : ℕ} {l : List α} {x : α} : x ∈ pickPerm i l ↔ x ∈ l :=
  (pickPerm_perm i l).mem_iff

lemma pickPerm_map_nodup {i : ℕ} {l : List WalletCycleEntry}
    (h : (l.map fun e => e.pubKey).Nodup) :
    ((pickPerm i l).map fun e => e.pubKey).Nodup :=
  (((pickPerm_perm i l).map fun e => e.pubKey).nodup_iff).mpr h

lemma refreshFold_spec (cfg : Config) (m : List (ℕ × ℕ)) (rcalc : ℕ → RebuyCalc) :
    ∀ (u bl : List ℕ) (es : List WalletCycleEntry),
    u.Nodup →
    (∀ e ∈ es, goodEntry cfg m e ∧ e.pubKey ∉ bl ∧ e.pubKey ∉ u) →
    ((es.map fun e => e.pubKey).Nodup) →
    (∀ x ∈ bl, x ∈ (refreshFold cfg m rcalc u bl es).1) ∧
    (∀ e ∈ (refreshFold cfg m rcalc u bl es).2,
      goodEntry cfg m e ∧ e.pubKey ∉ (refreshFold cfg m rcalc u bl es).1 ∧
      (e ∈ es ∨ e.pubKey ∈ u)) ∧
    (((refreshFold cfg m rcalc u bl es).2.map fun e => e.pubKey).Nodup) ∧
    (∀ pk ∈ u, pk ∈ cfg.selectedWallets → MAX_REBUY_COUNT ≤ rcGet m pk →
      pk ∈ (refreshFold cfg m rcalc u bl es).1) := by
  intro u
  induction u with
  | nil =>
    intro bl es hnd hes hesN
    refine ⟨fun x hx => hx, fun e he => ⟨(hes e he).1, (hes e he).2.1, Or.inl he⟩, hesN, ?_⟩
    intro pk hpk
    simp at hpk
  | cons pk0 tl ih =>
    intro bl es hnd hes hesN
    have hnd0 : pk0 ∉ tl := (List.nodup_cons.mp hnd).1
    have hndtl : tl.Nodup := (List.nodup_cons.mp hnd).2
    have hesW : ∀ e ∈ es, goodEntry cfg m e ∧ e.pubKey ∉ bl ∧ e.pubKey ∉ tl ∧ e.pubKey ≠ pk0 :=
      fun e he => ⟨(hes e he).1, (hes e he).2.1,
        fun ht => (hes e he).2.2 (List.mem_cons_of_mem _ ht),
        fun hq => (hes e he).2.2 (hq ▸ List.mem_cons_self _ _)⟩
    by_cases h1 : pk0 ∈ bl
    · have hrw : refreshFold cfg m rcalc (pk0 :: tl) bl es = refreshFold cfg m rcalc tl bl es := by
        unfold refreshFold
        rw [List.foldl_cons]
        congr 1
        unfold refreshAcc
        rw [if_pos h1]
      rw [hrw]
      have hr := ih bl es hndtl
        (fun e he => ⟨(hesW e he).1, (hesW e he).2.1, (hesW e he).2.2.1⟩) hesN
      refine ⟨hr.1, ?_, hr.2.2.1, ?_⟩
      · intro e he
        exact ⟨(hr.2.1 e he).1, (hr.2.1 e he).2.1,
          (hr.2.1 e he).2.2.elim Or.inl (fun h => Or.inr (List.mem_cons_of_mem _ h))⟩
      · intro pk hpk hsel hrc
        rcases List.mem_cons.mp hpk with rfl | hpk2
        · exact hr.1 pk h1
        · exact hr.2.2.2 pk hpk2 hsel hrc
    · by_cases h2 : pk0 ∉ cfg.selectedWallets
      · have hrw : refreshFold cfg m rcalc (pk0 :: tl) bl es =
            refreshFold cfg m rcalc tl bl es := by
          unfold refreshFold
          rw [List.foldl_cons]
          congr 1
          unfold refreshAcc
          rw [if_neg h1, if_pos h2]
        rw [hrw]
        have hr := ih bl es hndtl
          (fun e he => ⟨(hesW e he).1, (hesW e he).2.1, (hesW e he).2.2.1⟩) hesN
        refine ⟨hr.1, ?_, hr.2.2.1, ?_⟩
        · intro e he
          exact ⟨(hr.2.1 e he).1, (hr.2.1 e he).2.1,
            (hr.2.1 e he).2.2.elim Or.inl (fun h => Or.inr (List.mem_cons_of_mem _ h))⟩
        · intro pk hpk hsel hrc
          rcases List.mem_cons.mp hpk with rfl | hpk2
          · exact absurd hsel h2
          · exact hr.2.2.2 pk hpk2 hsel hrc
      · rw [not_not] at h2
        by_cases h3 : MAX_REBUY_COUNT ≤ rcGet m pk0
        · have hrw : refreshFold cfg m rcalc (pk0 :: tl) bl es =
              refreshFold cfg m rcalc tl (addUnique bl pk0) es := by
            unfold refreshFold
            rw [List.foldl_cons]
            congr 1
            unfold refreshAcc
            rw [if_neg h1, if_neg (not_not.mpr h2), if_pos h3]
          rw [hrw]
          have hr := ih (addUnique bl pk0) es hndtl
            (fun e he => ⟨(hesW e he).1,
              fun hm => (mem_addUnique.mp hm).elim ((hesW e he).2.1) ((hesW e he).2.2.2),
              (hesW e he).2.2.1⟩) hesN
          refine ⟨fun x hx => hr.1 x (subset_addUnique bl pk0 hx), ?_, hr.2.2.1, ?_⟩
          · intro e he
            exact ⟨(hr.2.1 e he).1, (hr.2.1 e he).2.1,
              (hr.2.1 e he).2.2.elim Or.inl (fun h => Or.inr (List.mem_cons_of_mem _ h))⟩
          · intro pk hpk hsel hrc
            rcases List.mem_cons.mp hpk with rfl | hpk2
            · exact hr.1 pk (mem_addUnique.mpr (Or.inr rfl))
            · exact hr.2.2.2 pk hpk2 hsel hrc
        · cases hc : rcalc pk0 with
          | ok =>
            have hrw : refreshFold cfg m rcalc (pk0 :: tl) bl es =
                refreshFold cfg m rcalc tl bl
                  (es ++ [⟨pk0, true, rcGet m pk0 + 1⟩]) := by
              unfold refreshFold
              rw [List.foldl_cons]
              congr 1
              unfold refreshAcc
              rw [if_neg h1, if_neg (not_not.mpr h2), if_neg h3, hc]
            rw [hrw]
            have hgood : goodEntry cfg m ⟨pk0, true, rcGet m pk0 + 1⟩ := by
              refine ⟨rfl, rfl, ?_, h2⟩
              show rcGet m pk0 < MAX_REBUY_COUNT
              omega
            have hes2 : ∀ e ∈ es ++ [⟨pk0, true, rcGet m pk0 + 1⟩],
                goodEntry cfg m e ∧ e.pubKey ∉ bl ∧ e.pubKey ∉ tl := by
              intro e he
              rcases List.mem_append.mp he with he2 | he2
              · exact ⟨(hesW e he2).1, (hesW e he2).2.1, (hesW e he2).2.2.1⟩
              · have := List.mem_singleton.mp he2
                subst this
                exact ⟨hgood, h1, hnd0⟩
            have hesN2 : (((es ++ [(⟨pk0, true, rcGet m pk0 + 1⟩ : WalletCycleEntry)]).map
                fun e => e.pubKey)).Nodup := by
              rw [List.map_append]
              rw [List.nodup_append]
              refine ⟨hesN, List.nodup_singleton _, ?_⟩
              intro x hx
              rcases List.mem_map.mp hx with ⟨e, he, rfl⟩
              simp only [List.map_cons, List.map_nil, List.mem_singleton]
              exact (hesW e he).2.2.2
            have hr := ih bl (es ++ [⟨pk0, true, rcGet m pk0 + 1⟩]) hndtl hes2 hesN2
            refine ⟨hr.1, ?_, hr.2.2.1, ?_⟩
            · intro e he
              refine ⟨(hr.2.1 e he).1, (hr.2.1 e he).2.1, ?_⟩
              rcases (hr.2.1 e he).2.2 with he2 | he2
              · rcases List.mem_append.mp he2 with he3 | he3
                · exact Or.inl he3
                · have := List.mem_singleton.mp he3
                  subst this
                  exact Or.inr (List.mem_cons_self _ _)
              · exact Or.inr (List.mem_cons_of_mem _ he2)
            · intro pk hpk hsel hrc
              rcases List.mem_cons.mp hpk with rfl | hpk2
              · exact absurd hrc h3
              · exact hr.2.2.2 pk hpk2 hsel hrc
          | tooSmall =>
            have hrw : refreshFold cfg m rcalc (pk0 :: tl) bl es =
                refreshFold cfg m rcalc tl (addUnique bl pk0) es := by
              unfold refreshFold
              rw [List.foldl_cons]
              congr 1
              unfold refreshAcc
              rw [if_neg h1, if_neg (not_not.mpr h2), if_neg h3, hc]
            rw [hrw]
            have hr := ih (addUnique bl pk0) es hndtl
              (fun e he => ⟨(hesW e he).1,
                fun hm => (mem_addUnique.mp hm).elim ((hesW e he).2.1) ((hesW e he).2.2.2),
                (hesW e he).2.2.1⟩) hesN
            refine ⟨fun x hx => hr.1 x (subset_addUnique bl pk0 hx), ?_, hr.2.2.1, ?_⟩
            · intro e he
              exact ⟨(hr.2.1 e he).1, (hr.2.1 e he).2.1,
                (hr.2.1 e he).2.2.elim Or.inl (fun h => Or.inr (List.mem_cons_of_mem _ h))⟩
            · intro pk hpk hsel hrc
              rcases List.mem_cons.mp hpk with rfl | hpk2
              · exact absurd hrc h3
              · exact hr.2.2.2 pk hpk2 hsel hrc
          | err =>
            have hrw : refreshFold cfg m rcalc (pk0 :: tl) bl es =
                refreshFold cfg m rcalc tl bl es := by
              unfold refreshFold
              rw [List.foldl_cons]
              congr 1
              unfold refreshAcc
              rw [if_neg h1, if_neg (not_not.mpr h2), if_neg h3, hc]
            rw [hrw]
            have hr := ih bl es hndtl
              (fun e he => ⟨(hesW e he).1, (hesW e he).2.1, (hesW e he).2.2.1⟩) hesN
            refine ⟨hr.1, ?_, hr.2.2.1, ?_⟩
            · intro e he
              exact ⟨(hr.2.1 e he).1, (hr.2.1 e he).2.1,
                (hr.2.1 e he).2.2.elim Or.inl (fun h => Or.inr (List.mem_cons_of_mem _ h))⟩
            · intro pk hpk hsel hrc
              rcases List.mem_cons.mp hpk with rfl | hpk2
              · exact absurd hrc h3
              · exact hr.2.2.2 pk hpk2 hsel hrc

lemma refresh_spec (cfg : Config) (s : SessionState) (rcalc : ℕ → RebuyCalc) (pi : ℕ)
    (husw : s.usedSellWallets.Nodup) :
    (∀ x ∈ s.blacklistedWallets, x ∈ (refresh cfg s rcalc pi).blacklistedWallets) ∧
    (∀ e ∈ (refresh cfg s rcalc pi).walletCycle,
      goodEntry cfg s.rebuyCountMap e ∧
      e.pubKey ∉ (refresh cfg s rcalc pi).blacklistedWallets ∧
      e.pubKey ∈ s.usedSellWallets) ∧
    ((refresh cfg s rcalc pi).walletCycle.map fun e => e.pubKey).Nodup ∧
    (∀ pk ∈ s.usedSellWallets, pk ∈ cfg.selectedWallets →
      MAX_REBUY_COUNT ≤ rcGet s.rebuyCountMap pk →
      pk ∈ (refresh cfg s rcalc pi).blacklistedWallets) := by
  have hr := refreshFold_spec cfg s.rebuyCountMap rcalc s.usedSellWallets s.blacklistedWallets []
    husw (by intro e he; simp at he) (by simp)
  by_cases he : (refreshFold cfg s.rebuyCountMap rcalc s.usedSellWallets
      s.blacklistedWallets []).2.isEmpty = true
  · simp only [refresh, he, if_true]
    refine ⟨hr.1, ?_, by simp, hr.2.2.2⟩
    intro e he2
    simp at he2
  · simp only [refresh, if_neg he]
    refine ⟨hr.1, ?_, pickPerm_map_nodup hr.2.2.1, hr.2.2.2⟩
    intro e he2
    have he3 := mem_pickPerm.mp he2
    have h4 := hr.2.1 e he3
    exact ⟨h4.1, h4.2.1, h4.2.2.elim (fun hh => absurd hh (List.not_mem_nil e)) id⟩

lemma inv_transport (cfg : Config) {s t : SessionState} (h : Inv cfg s)
    (hmap : t.rebuyCountMap = s.rebuyCountMap)
    (hcyc : t.walletCycle = s.walletCycle)
    (hbl : t.blacklistedWallets = s.blacklistedWallets)
    (husub : s.usedSellWallets ⊆ t.usedSellWallets)
    (hund : t.usedSellWallets.Nodup) :
    Inv cfg t := by
  refine ⟨h.selN, hund, ?_, ?_, ?_, ?_, ?_, ?_⟩
  · rw [hcyc]
    exact h.cycN
  · intro e he hr
    rw [hcyc] at he
    have hE := h.rebuyE e he hr
    rw [hmap]
    exact ⟨hE.1, hE.2.1, husub hE.2.2.1, hE.2.2.2⟩
  · intro e he hf
    rw [hcyc] at he
    rw [hmap]
    exact h.freshE e he hf
  · rw [hcyc]
    exact h.homog
  · intro pk v hl
    rw [hmap] at hl
    have hM := h.mapR pk v hl
    exact ⟨hM.1, hM.2.1, husub hM.2.2.1, hM.2.2.2⟩
  · intro e he
    rw [hcyc] at he
    rw [hbl]
    exact h.cycBl e he

lemma inv_refresh (cfg : Config) (s : SessionState) (rcalc : ℕ → RebuyCalc) (pi : ℕ)
    (h : Inv cfg s) : Inv cfg (refresh cfg s rcalc pi) := by
  have hf := refresh_fields cfg s rcalc pi
  have hs := refresh_spec cfg s rcalc pi h.uswN
  refine ⟨h.selN, ?_, hs.2.2.1, ?_, ?_, Or.inl ?_, ?_, ?_⟩
  · rw [hf.2.1]
    exact h.uswN
  · intro e he _
    have hg := (hs.2.1 e he).1
    refine ⟨?_, ?_, ?_, hg.2.2.2⟩
    · rw [hf.1]
      exact hg.2.1
    · have h1 := hg.2.1
      have h2 := hg.2.2.1
      omega
    · rw [hf.2.1]
      exact (hs.2.1 e he).2.2
  · intro e he hfr
    have hg := (hs.2.1 e he).1
    rw [hg.1] at hfr
    exact absurd hfr (by simp)
  · intro e he
    exact (hs.2.1 e he).1.1
  · intro pk v hl
    rw [hf.1] at hl
    have hM := h.mapR pk v hl
    rw [hf.2.1]
    exact hM
  · intro e he
    exact (hs.2.1 e he).2.1

lemma inv_init (cfg : Config) (hsel : cfg.selectedWallets.Nodup) : Inv cfg (initState cfg) := by
  refine ⟨hsel, List.nodup_nil, ?_, ?_, ?_, Or.inr ?_, ?_, ?_⟩
  · show ((cfg.selectedWallets.map fun pk => (⟨pk, false, 0⟩ : WalletCycleEntry)).map
      fun e => e.pubKey).Nodup
    rw [List.map_map]
    show (cfg.selectedWallets.map fun pk => pk).Nodup
    rw [List.map_id']
    exact hsel
  · intro e he hr
    simp only [initState, List.mem_map] at he
    rcases he with ⟨pk, hpk, rfl⟩
    simp at hr
  · intro e he _
    rfl
  · intro e he
    simp only [initState, List.mem_map] at he
    rcases he with ⟨pk, hpk, rfl⟩
    rfl
  · intro pk v hl
    simp [initState, List.lookup] at hl
  · intro e he
    simp [initState]

lemma inv_step (cfg : Config) (s : SessionState) (ev : Event) (h : Inv cfg s) :
    Inv cfg (step cfg s ev) := by
  unfold step stepT
  by_cases hp : ev.paused = true
  · simpa only [hp, if_true] using h
  · simp only [hp, Bool.false_eq_true, if_false]
    by_cases hst : s.stopped = true
    · simpa only [hst, if_true] using h
    · simp only [hst, Bool.false_eq_true, if_false]
      set s1 := (if s.walletCycle.isEmpty then refresh cfg s ev.rebuyCalc ev.permIdx else s)
        with hs1
      have h1 : Inv cfg s1 := by
        rw [hs1]
        split
        · exact inv_refresh cfg s ev.rebuyCalc ev.permIdx h
        · exact h
      cases hcyc : s1.walletCycle with
      | nil => simpa only [hcyc] using h1
      | cons e rest =>
        simp only [hcyc]
        have hcn : (s1.walletCycle.map fun x => x.pubKey).Nodup := h1.cycN
        rw [hcyc, List.map_cons, List.nodup_cons] at hcn
        have h2 : Inv cfg ({ s1 with walletCycle := rest }) := by
          refine ⟨h1.selN, h1.uswN, hcn.2, ?_, ?_, ?_, h1.mapR, ?_⟩
          · intro e2 he2 hr
            exact h1.rebuyE e2 (by rw [hcyc]; exact List.mem_cons_of_mem _ he2) hr
          · intro e2 he2 hfr
            exact h1.freshE e2 (by rw [hcyc]; exact List.mem_cons_of_mem _ he2) hfr
          · rcases h1.homog with hh | hh
            · exact Or.inl fun e2 he2 => hh e2 (by rw [hcyc]; exact List.mem_cons_of_mem _ he2)
            · exact Or.inr fun e2 he2 => hh e2 (by rw [hcyc]; exact List.mem_cons_of_mem _ he2)
          · intro e2 he2
            exact h1.cycBl e2 (by rw [hcyc]; exact List.mem_cons_of_mem _ he2)
        cases ho : ev.outcome with
        | skip => simpa only [tickCore] using h2
        | buyFail => simpa only [tickCore] using h2
        | buyOk so dN dR =>
          simp only [tickCore]
          have hmem : e ∈ s1.walletCycle := by
            rw [hcyc]
            exact List.mem_cons_self _ _
          have h3 : Inv cfg (buySuccessState ({ s1 with walletCycle := rest }) e) := by
            cases hre : e.isRebuy with
            | false =>
              have husw2 : (buySuccessState ({ s1 with walletCycle := rest }) e).usedSellWallets
                  = s1.usedSellWallets := by
                simp only [buySuccessState, hre, Bool.false_eq_true, if_false]
              refine inv_transport cfg h2 ?_ ?_ ?_ ?_ ?_
              · simp only [buySuccessState, hre, Bool.false_eq_true, if_false]
              · simp only [buySuccessState, hre, Bool.false_eq_true, if_false]
              · simp only [buySuccessState, hre, Bool.false_eq_true, if_false]
              · rw [husw2]
                exact fun x hx => hx
              · rw [husw2]
                exact h1.uswN
            | true =>
              have hE := h1.rebuyE e hmem hre
              have hmapnew : (buySuccessState ({ s1 with walletCycle := rest }) e).rebuyCountMap
                  = rcSet s1.rebuyCountMap e.pubKey e.rebuyCount := by
                simp only [buySuccessState, hre, if_true]
              have hcyc2 : (buySuccessState ({ s1 with walletCycle := rest }) e).walletCycle
                  = rest := by
                simp only [buySuccessState, hre, if_true]
              have husw2 : (buySuccessState ({ s1 with walletCycle := rest }) e).usedSellWallets
                  = s1.usedSellWallets := by
                simp only [buySuccessState, hre, if_true]
              have hbl2 : (buySuccessState ({ s1 with walletCycle := rest }) e).blacklistedWallets
                  = s1.blacklistedWallets := by
                simp only [buySuccessState, hre, if_true]
              have hneq : ∀ e2 ∈ rest, e2.pubKey ≠ e.pubKey := by
                intro e2 he2 hq
                exact hcn.1 (hq ▸ List.mem_map_of_mem (fun x => x.pubKey) he2)
              refine ⟨h1.selN, ?_, ?_, ?_, ?_, ?_, ?_, ?_⟩
              · rw [husw2]
                exact h1.uswN
              · rw [hcyc2]
                exact hcn.2
              · intro e2 he2 hr2
                rw [hcyc2] at he2
                rw [hmapnew, husw2]
                have hE2 := h1.rebuyE e2 (by rw [hcyc]; exact List.mem_cons_of_mem _ he2) hr2
                rw [rcGet_rcSet, if_neg (hneq e2 he2)]
                exact hE2
              · intro e2 he2 hfr
                rw [hcyc2] at he2
                rcases h1.homog with hh | hh
                · have := hh e2 (by rw [hcyc]; exact List.mem_cons_of_mem _ he2)
                  rw [this] at hfr
                  exact absurd hfr (by simp)
                · have := hh e (by rw [hcyc]; exact List.mem_cons_self _ _)
                  rw [this] at hre
                  exact absurd hre (by simp)
              · rw [hcyc2]
                rcases h1.homog with hh | hh
                · exact Or.inl fun e2 he2 => hh e2 (by rw [hcyc]; exact List.mem_cons_of_mem _ he2)
                · exact Or.inr fun e2 he2 => hh e2 (by rw [hcyc]; exact List.mem_cons_of_mem _ he2)
              · intro pk2 v hl
                rw [hmapnew, lookup_rcSet] at hl
                rw [husw2]
                by_cases hq : pk2 = e.pubKey
                · rw [if_pos hq] at hl
                  have hv : v = e.rebuyCount := (Option.some.inj hl).symm
                  subst hv
                  subst hq
                  exact ⟨by omega, hE.2.1, hE.2.2.1, hE.2.2.2⟩
                · rw [if_neg hq] at hl
                  exact h1.mapR pk2 v hl
              · intro e2 he2
                rw [hcyc2] at he2
                rw [hbl2]
                exact h1.cycBl e2 (by rw [hcyc]; exact List.mem_cons_of_mem _ he2)
          have hsp := sellPhase_fields (buySuccessState ({ s1 with walletCycle := rest }) e)
            so dN dR e.pubKey
          exact inv_transport cfg h3 hsp.1 hsp.2.2.1 hsp.2.1 hsp.2.2.2.2.2.1
            (hsp.2.2.2.2.2.2 h3.uswN)

lemma inv_foldl (cfg : Config) :
    ∀ (l : List Event) (s : SessionState), Inv cfg s → Inv cfg (l.foldl (step cfg) s) := by
  intro l
  induction l with
  | nil => exact fun s h => h
  | cons e t ih => exact fun s h => ih (step cfg s e) (inv_step cfg s e h)

lemma inv_runS (cfg : Config) (hsel : cfg.selectedWallets.Nodup) (evs : List Event) :
    Inv cfg (runS cfg evs) :=
  inv_foldl cfg evs (initState cfg) (inv_init cfg hsel)

lemma inv_max_not_in_cycle (cfg : Config) {s : SessionState} (h : Inv cfg s) (pk : ℕ)
    (hmax : rcGet s.rebuyCountMap pk = MAX_REBUY_COUNT) :
    ∀ e ∈ s.walletCycle, e.pubKey ≠ pk := by
  have hM : MAX_REBUY_COUNT = 10 := rfl
  intro e he heq
  cases hre : e.isRebuy with
  | true =>
    obtain ⟨h1, h2, -, -⟩ := h.rebuyE e he hre
    rw [heq] at h1
    omega
  | false =>
    have hF := h.freshE e he hre
    rw [heq] at hF
    omega

lemma step_map_mono (cfg : Config) (s : SessionState) (ev : Event) (h : Inv cfg s) (pk : ℕ) :
    rcGet s.rebuyCountMap pk ≤ rcGet (step cfg s ev).rebuyCountMap pk := by
  unfold step stepT
  by_cases hp : ev.paused = true
  · simp only [hp, if_true]
    exact le_refl _
  · simp only [hp, Bool.false_eq_true, if_false]
    by_cases hst : s.stopped = true
    · simp only [hst, if_true]
      exact le_refl _
    · simp only [hst, Bool.false_eq_true, if_false]
      set s1 := (if s.walletCycle.isEmpty then refresh cfg s ev.rebuyCalc ev.permIdx else s)
        with hs1
      have h1 : Inv cfg s1 := by
        rw [hs1]
        split
        · exact inv_refresh cfg s ev.rebuyCalc ev.permIdx h
        · exact h
      have hmeq : s1.rebuyCountMap = s.rebuyCountMap := by
        rw [hs1]
        split
        · exact (refresh_fields cfg s ev.rebuyCalc ev.permIdx).1
        · rfl
      cases hcyc : s1.walletCycle with
      | nil =>
        simp only [hcyc]
        rw [hmeq]
      | cons e rest =>
        simp only [hcyc]
        cases ho : ev.outcome with
        | skip =>
          simp only [tickCore]
          show rcGet s.rebuyCountMap pk ≤ rcGet s1.rebuyCountMap pk
          rw [hmeq]
        | buyFail =>
          simp only [tickCore]
          show rcGet s.rebuyCountMap pk ≤ rcGet s1.rebuyCountMap pk
          rw [hmeq]
        | buyOk so dN dR =>
          simp only [tickCore]
          have hsp := (sellPhase_fields (buySuccessState ({ s1 with walletCycle := rest }) e)
            so dN dR e.pubKey).1
          rw [hsp]
          cases hre : e.isRebuy with
          | false =>
            have hbm : (buySuccessState ({ s1 with walletCycle := rest }) e).rebuyCountMap
                = s1.rebuyCountMap := by
              simp only [buySuccessState, hre, Bool.false_eq_true, if_false]
            rw [hbm, hmeq]
          | true =>
            have hbm : (buySuccessState ({ s1 with walletCycle := rest }) e).rebuyCountMap
                = rcSet s1.rebuyCountMap e.pubKey e.rebuyCount := by
              simp only [buySuccessState, hre, if_true]
            rw [hbm, rcGet_rcSet]
            by_cases hq : pk = e.pubKey
            · rw [if_pos hq]
              have hE := h1.rebuyE e (by rw [hcyc]; exact List.mem_cons_self _ _) hre
              have h1E := hE.1
              rw [← hq, hmeq] at h1E
              omega
            · rw [if_neg hq, hmeq]

lemma step_bl_mono (cfg : Config) (s : SessionState) (ev : Event) (h : Inv cfg s) {pk : ℕ}
    (hpk : pk ∈ s.blacklistedWallets) : pk ∈ (step cfg s ev).blacklistedWallets := by
  unfold step stepT
  by_cases hp : ev.paused = true
  · simp only [hp, if_true]
    exact hpk
  · simp only [hp, Bool.false_eq_true, if_false]
    by_cases hst : s.stopped = true
    · simp only [hst, if_true]
      exact hpk
    · simp only [hst, Bool.false_eq_true, if_false]
      set s1 := (if s.walletCycle.isEmpty then refresh cfg s ev.rebuyCalc ev.permIdx else s)
        with hs1
      have hbl1 : pk ∈ s1.blacklistedWallets := by
        rw [hs1]
        split
        · exact (refresh_spec cfg s ev.rebuyCalc ev.permIdx h.uswN).1 pk hpk
        · exact hpk
      cases hcyc : s1.walletCycle with
      | nil =>
        simp only [hcyc]
        exact hbl1
      | cons e rest =>
        simp only [hcyc]
        cases ho : ev.outcome with
        | skip =>
          simp only [tickCore]
          exact hbl1
        | buyFail =>
          simp only [tickCore]
          exact hbl1
        | buyOk so dN dR =>
          simp only [tickCore]
          have hsp := (sellPhase_fields (buySuccessState ({ s1 with walletCycle := rest }) e)
            so dN dR e.pubKey).2.1
          rw [hsp]
          have hbb : (buySuccessState ({ s1 with walletCycle := rest }) e).blacklistedWallets
              = s1.blacklistedWallets := by
            cases hre : e.isRebuy with
            | true => simp only [buySuccessState, hre, if_true]
            | false => simp only [buySuccessState, hre, Bool.false_eq_true, if_false]
          rw [hbb]
          exact hbl1

lemma step_processed_spec (cfg : Config) (s : SessionState) (ev : Event) (h : Inv cfg s)
    (pk : ℕ) :
    (pk ∈ s.blacklistedWallets → (stepT cfg s ev).2.processed ≠ some pk) ∧
    (rcGet s.rebuyCountMap pk = MAX_REBUY_COUNT →
      (stepT cfg s ev).2.processed ≠ some pk) := by
  unfold stepT
  by_cases hp : ev.paused = true
  · simp only [hp, if_true]
    exact ⟨fun _ hq => by simp at hq, fun _ hq => by simp at hq⟩
  · simp only [hp, Bool.false_eq_true, if_false]
    by_cases hst : s.stopped = true
    · simp only [hst, if_true]
      exact ⟨fun _ hq => by simp at hq, fun _ hq => by simp at hq⟩
    · simp only [hst, Bool.false_eq_true, if_false]
      set s1 := (if s.walletCycle.isEmpty then refresh cfg s ev.rebuyCalc ev.permIdx else s)
        with hs1
      have h1 : Inv cfg s1 := by
        rw [hs1]
        split
        · exact inv_refresh cfg s ev.rebuyCalc ev.permIdx h
        · exact h
      have hmeq : s1.rebuyCountMap = s.rebuyCountMap := by
        rw [hs1]
        split
        · exact (refresh_fields cfg s ev.rebuyCalc ev.permIdx).1
        · rfl
      have hblsub : ∀ x ∈ s.blacklistedWallets, x ∈ s1.blacklistedWallets := by
        rw [hs1]
        split
        · exact (refresh_spec cfg s ev.rebuyCalc ev.permIdx h.uswN).1
        · exact fun x hx => hx
      cases hcyc : s1.walletCycle with
      | nil =>
        simp only [hcyc]
        exact ⟨fun _ hq => by simp at hq, fun _ hq => by simp at hq⟩
      | cons e rest =>
        simp only [hcyc]
        constructor
        · intro hbl hq
          have heq : e.pubKey = pk := by
            have := congrArg (fun o => o.getD 0) hq
            simpa using this
          exact h1.cycBl e (by rw [hcyc]; exact List.mem_cons_self _ _)
            (heq ▸ hblsub pk hbl)
        · intro hmax hq
          have heq : e.pubKey = pk := by
            have := congrArg (fun o => o.getD 0) hq
            simpa using this
          exact inv_max_not_in_cycle cfg h1 pk (by rw [hmeq]; exact hmax) e
            (by rw [hcyc]; exact List.mem_cons_self _ _) heq

lemma step_refresh_blacklists (cfg : Config) (s : SessionState) (ev : Event) (h : Inv cfg s)
    (pk : ℕ) (hmax : rcGet s.rebuyCountMap pk = MAX_REBUY_COUNT)
    (hcyc0 : s.walletCycle = []) (hst : s.stopped = false) (hp : ev.paused = false) :
    pk ∈ (step cfg s ev).blacklistedWallets := by
  have hM : MAX_REBUY_COUNT = 10 := rfl
  have hne : rcGet s.rebuyCountMap pk ≠ 0 := by omega
  have hlk := rcGet_lookup_of_ne_zero hne
  rw [hmax] at hlk
  have hm := h.mapR pk MAX_REBUY_COUNT hlk
  have hbl1 : pk ∈ (refresh cfg s ev.rebuyCalc ev.permIdx).blacklistedWallets :=
    (refresh_spec cfg s ev.rebuyCalc ev.permIdx h.uswN).2.2.2 pk hm.2.2.1 hm.2.2.2
      (le_of_eq hmax.symm)
  have hempty : s.walletCycle.isEmpty = true := by
    rw [hcyc0]
    rfl
  unfold step stepT
  simp only [hp, hst, Bool.false_eq_true, if_false, hempty, if_true]
  set s1 := refresh cfg s ev.rebuyCalc ev.permIdx with hs1
  cases hc1 : s1.walletCycle with
  | nil =>
    simp only [hc1]
    exact hbl1
  | cons e rest =>
    simp only [hc1]
    cases ho : ev.outcome with
    | skip =>
      simp only [tickCore]
      exact hbl1
    | buyFail =>
      simp only [tickCore]
      exact hbl1
    | buyOk so dN dR =>
      simp only [tickCore]
      have hsp := (sellPhase_fields (buySuccessState ({ s1 with walletCycle := rest }) e)
        so dN dR e.pubKey).2.1
      rw [hsp]
      have hbb : (buySuccessState ({ s1 with walletCycle := rest }) e).blacklistedWallets
          = s1.blacklistedWallets := by
        cases hre : e.isRebuy with
        | true => simp only [buySuccessState, hre, if_true]
        | false => simp only [buySuccessState, hre, Bool.false_eq_true, if_false]
      rw [hbb]
      exact hbl1

/-- C4: along every run of the loop, the recorded rebuy count of a wallet
never decreases from one iteration to the next; a blacklisted wallet
stays blacklisted, is not in the remaining cycle and is not the wallet
processed next; and a wallet whose rebuy count has reached
MAX_REBUY_COUNT is no longer in the cycle, is never processed again and
is added to blacklistedWallets by the next cycle refresh. -/
theorem rebuy_count_monotone_blacklist_permanent (cfg : Config)
    (hsel : cfg.selectedWallets.Nodup) (evs : List Event) (ev : Event) (pk : ℕ) :
    rcGet (runS cfg evs).rebuyCountMap pk ≤ rcGet (runS cfg (evs ++ [ev])).rebuyCountMap pk
    ∧ (pk ∈ (runS cfg evs).blacklistedWallets →
        pk ∈ (runS cfg (evs ++ [ev])).blacklistedWallets ∧
        (∀ e ∈ (runS cfg evs).walletCycle, e.pubKey ≠ pk) ∧
        (stepT cfg (runS cfg evs) ev).2.processed ≠ some pk)
    ∧ (rcGet (runS cfg evs).rebuyCountMap pk = MAX_REBUY_COUNT →
        (∀ e ∈ (runS cfg evs).walletCycle, e.pubKey ≠ pk) ∧
        (stepT cfg (runS cfg evs) ev).2.processed ≠ some pk ∧
        ((runS cfg evs).walletCycle = [] → (runS cfg evs).stopped = false →
          ev.paused = false → pk ∈ (runS cfg (evs ++ [ev])).blacklistedWallets)) := by
  have hInv := inv_runS cfg hsel evs
  rw [runS_append]
  refine ⟨step_map_mono cfg _ ev hInv pk, ?_, ?_⟩
  · intro hbl
    refine ⟨step_bl_mono cfg _ ev hInv hbl, ?_,
      (step_processed_spec cfg _ ev hInv pk).1 hbl⟩
    intro e he heq
    exact (hInv.cycBl e he) (heq ▸ hbl)
  · intro hmax
    exact ⟨inv_max_not_in_cycle cfg hInv pk hmax,
      (step_processed_spec cfg _ ev hInv pk).2 hmax,
      fun hc hs hpp => step_refresh_blacklists cfg _ ev hInv pk hmax hc hs hpp⟩

/-- C4 witness: after the ceiling trace, the rebuy count of wallet 0 is
exactly the ceiling, the cycle is exhausted and the run not stopped, and
the next iteration blacklists the wallet. -/
theorem rebuy_count_monotone_blacklist_permanent_witness :
    cfgFour.selectedWallets.Nodup ∧
    rcGet (runS cfgFour evsToCeiling).rebuyCountMap 0 = MAX_REBUY_COUNT ∧
    0 ∈ (runS cfgFour (evsToCeiling ++ [evBuyOk])).blacklistedWallets := by
  refine ⟨by decide, by decide, ?_⟩
  exact ((rebuy_count_monotone_blacklist_permanent cfgFour (by decide) evsToCeiling
    evBuyOk 0).2.2 (by decide)).2.2 (by decide) (by decide) (by decide)

end HumanBuy
